import Mathlib

/-!
# Herb chaincode: the record-access layer

A shallow embedding of `herb-chaincode.go`.

* Go strings and byte slices are modelled twice.  Keys, stored values and payloads are
  `String`, a sequence of Unicode scalar values, that is, valid UTF-8 text; a byte slice
  that may be `nil` is an `Option String`.  The arguments a record is built from are also
  modelled as raw byte strings (`Bytes`), which need not be valid UTF-8: `recordHerbRaw`
  and `changeHerbHolderRaw` are the handlers on raw arguments, `json.MarshalRaw` writes
  `\ufffd` for every byte that is not part of a valid UTF-8 sequence, as the Go encoder
  does, and on arguments that are text they are the handlers on text
  (`recordHerbRaw_text`, `changeHerbHolderRaw_text`).
* The ledger behind `shim.ChaincodeStubInterface` is modelled as an ordered key-value
  store (`WorldState`): a list of entries kept strictly ascending in the lexicographic
  order of the keys.  `GetState`, `PutState` and `GetStateByRange` are the three calls
  the chaincode makes.  A `PutState` or a `GetStateByRange` may report an error; which
  ones do is part of the stub (`putErr`, `rangeErr`).
* `encoding/json` is modelled for the one type the chaincode encodes, `HerbCrops`:
  `json.Marshal` writes the six members in declaration order with the string escaping
  of the Go encoder, `json.Unmarshal` validates the whole document and then stores the
  members of a top-level object into the record.  The parser of documents runs on fuel,
  the length of the input plus one, which is enough for every input (`Valid_iff`).
* Every operation takes the stub and returns the response together with the stub
  after the call.
-/

namespace HerbChaincode

/-! ## Data model -/

/-- Herb record, the `HerbCrops` struct of the source. -/
structure HerbCrops where
  Name : String
  Family : String
  Location : String
  Production : String
  Holder : String
  Timestamp : String
deriving DecidableEq

/-- Response of a chaincode call (`sc.Response`): a status, an error message and a
payload that may be `nil`. -/
structure Response where
  Status : Nat
  Message : String
  Payload : Option String
deriving DecidableEq

namespace shim

/-- Status code of a successful response. -/
def OK : Nat := 200

/-- Status code of a failed response. -/
def ERROR : Nat := 500

/-- Successful response carrying `payload` (`shim.Success`). -/
def Success (payload : Option String) : Response :=
  { Status := OK, Message := "", Payload := payload }

/-- Failed response carrying the message `msg` (`shim.Error`). -/
def Error (msg : String) : Response :=
  { Status := ERROR, Message := msg, Payload := none }

end shim

/-! ## The ledger behind the stub -/

/-- Strict lexicographic order on keys, character by character. -/
def keyLt (a b : String) : Prop := a.data < b.data

instance keyLtDecidable (a b : String) : Decidable (keyLt a b) :=
  inferInstanceAs (Decidable (a.data < b.data))

/-- Value stored under `k` in a list of entries, if any. -/
def lookupEntry (k : String) : List (String × String) → Option String
  | [] => none
  | (k1, v1) :: rest => if k1 = k then some v1 else lookupEntry k rest

/-- Write `v` under `k` in an ascending list of entries: an entry with the same key is
replaced, otherwise the new entry is put at its place in the order. -/
def insertEntry (k v : String) : List (String × String) → List (String × String)
  | [] => [(k, v)]
  | (k1, v1) :: rest =>
    if keyLt k k1 then (k, v) :: (k1, v1) :: rest
    else if k = k1 then (k, v) :: rest
    else (k1, v1) :: insertEntry k v rest

/-- Keys of a list of entries are strictly ascending. -/
def SortedKeys (es : List (String × String)) : Prop :=
  es.Pairwise (fun x y => keyLt x.1 y.1)

/-- World state of the ledger: entries in strictly ascending key order. -/
structure WorldState where
  entries : List (String × String)
  sorted : SortedKeys entries

namespace WorldState

/-- Ledger with no entry. -/
def empty : WorldState := ⟨[], List.Pairwise.nil⟩

/-- Value stored under `k`, if any. -/
def get (s : WorldState) (k : String) : Option String := lookupEntry k s.entries

/-- Ledger after writing `v` under `k`. -/
def put (s : WorldState) (k v : String) : WorldState :=
  ⟨insertEntry k v s.entries, by
    have hmem : ∀ (es : List (String × String)) (x : String × String),
        x ∈ insertEntry k v es → x = (k, v) ∨ x ∈ es := by
      intro es
      induction es with
      | nil => intro x hx; simpa [insertEntry] using hx
      | cons e rest ih =>
        intro x hx
        unfold insertEntry at hx
        split_ifs at hx with h1 h2
        · exact List.mem_cons.1 hx
        · rcases List.mem_cons.1 hx with h | h
          · exact Or.inl h
          · exact Or.inr (List.mem_cons_of_mem _ h)
        · rcases List.mem_cons.1 hx with h | h
          · exact Or.inr (h ▸ List.mem_cons_self _ _)
          · rcases ih x h with h3 | h3
            · exact Or.inl h3
            · exact Or.inr (List.mem_cons_of_mem _ h3)
    have hsorted : ∀ es : List (String × String),
        SortedKeys es → SortedKeys (insertEntry k v es) := by
      intro es
      induction es with
      | nil => intro _; simp [insertEntry, SortedKeys]
      | cons e rest ih =>
        intro hs
        have hhead := (List.pairwise_cons.1 hs).1
        have htail := (List.pairwise_cons.1 hs).2
        unfold insertEntry
        split_ifs with h1 h2
        · refine List.pairwise_cons.2 ⟨?_, hs⟩
          intro y hy
          rcases List.mem_cons.1 hy with h | h
          · subst h; exact h1
          · exact lt_trans (α := List Char) h1 (hhead y h)
        · subst h2
          exact List.pairwise_cons.2 ⟨hhead, htail⟩
        · refine List.pairwise_cons.2 ⟨?_, ih htail⟩
          intro y hy
          rcases hmem rest y hy with h | h
          · subst h
            rcases lt_trichotomy k.data e.1.data with h3 | h3 | h3
            · exact absurd h3 h1
            · exact absurd (String.ext h3) h2
            · exact h3
          · exact hhead y h
    exact hsorted s.entries s.sorted⟩

end WorldState

/-- A key lies in the range of a scan: the start is inclusive, the end is exclusive, and
an empty end key leaves the range open. -/
def inRange (startKey endKey k : String) : Bool :=
  decide (¬ keyLt k startKey) && (decide (endKey = "") || decide (keyLt k endKey))

/-- Stub handed to the chaincode (`shim.ChaincodeStubInterface`): the ledger, the keys
whose `PutState` reports an error, and the error of `GetStateByRange` if it reports one. -/
structure ChaincodeStub where
  state : WorldState
  putErr : String → Bool
  rangeErr : Option String

namespace ChaincodeStub

/-- Bytes stored under `key`, or `nil` when the key has no entry. -/
def GetState (stub : ChaincodeStub) (key : String) : Option String :=
  stub.state.get key

/-- Write `value` under `key`.  The result is the error flag and the stub after the
call; a write that reports an error leaves the ledger as it was. -/
def PutState (stub : ChaincodeStub) (key value : String) : Bool × ChaincodeStub :=
  if stub.putErr key then (true, stub)
  else (false, { stub with state := stub.state.put key value })

/-- Range scan: the error, or the iterator as the list of the results of its `Next`
calls, the entries with `startKey <= key < endKey` in ascending key order. -/
def GetStateByRange (stub : ChaincodeStub) (startKey endKey : String) :
    Except String (List (Except String (String × String))) :=
  match stub.rangeErr with
  | some err => Except.error err
  | none =>
    Except.ok ((stub.state.entries.filter (fun e => inRange startKey endKey e.1)).map Except.ok)

end ChaincodeStub

/-! ## The record codec (`encoding/json` on `HerbCrops`) -/

namespace json

/-- Hexadecimal digit of a value below 16, lower case as the encoder writes it. -/
def hexDigit (n : Nat) : Char :=
  "0123456789abcdef".data.getD n '0'

/-- Text the encoder writes for one character of a string: a quote and a backslash get
a backslash before them, a line feed, a carriage return and a tab get their short
escape, the other characters below 0x20 and the characters `<`, `>` and `&` are written
as `\u00XX`, the separators U+2028 and U+2029 as `\u202X`, and every other character is
written as it is. -/
def escapeChar (c : Char) : List Char :=
  if c = '\\' ∨ c = '\"' then ['\\', c]
  else if c = '\n' then ['\\', 'n']
  else if c = '\r' then ['\\', 'r']
  else if c = '\t' then ['\\', 't']
  else if c.toNat < 32 ∨ c = '<' ∨ c = '>' ∨ c = '&' then
    ['\\', 'u', '0', '0', hexDigit (c.toNat / 16), hexDigit (c.toNat % 16)]
  else if c.toNat = 8232 ∨ c.toNat = 8233 then
    ['\\', 'u', '2', '0', '2', hexDigit (c.toNat % 16)]
  else [c]

/-- Body of an encoded string, without the surrounding quotes. -/
def escapeChars : List Char → List Char
  | [] => []
  | c :: cs => escapeChar c ++ escapeChars cs

/-- Encoded string value: the escaped text between two quotes. -/
def encodeString (s : String) : List Char :=
  '\"' :: (escapeChars s.data ++ ['\"'])

/-- Encoding of a record: an object with the six members in the order of the struct
declaration, under the names of the struct tags. -/
def Marshal (herb : HerbCrops) : String :=
  ⟨"\x7b\"name\":".data ++ encodeString herb.Name
    ++ ",\"family\":".data ++ encodeString herb.Family
    ++ ",\"location\":".data ++ encodeString herb.Location
    ++ ",\"production\":".data ++ encodeString herb.Production
    ++ ",\"holder\":".data ++ encodeString herb.Holder
    ++ ",\"timestamp\":".data ++ encodeString herb.Timestamp
    ++ "\x7d".data⟩

/-- Parsed document. -/
inductive Value where
  | null : Value
  | bool (b : Bool) : Value
  | number (raw : List Char) : Value
  | string (s : List Char) : Value
  | array (elems : List Value) : Value
  | object (members : List (List Char × Value)) : Value

/-- Skip the white space of a document: space, tab, carriage return, line feed. -/
def skipSpace : List Char → List Char
  | [] => []
  | c :: cs => if c = ' ' ∨ c = '\t' ∨ c = '\r' ∨ c = '\n' then skipSpace cs else c :: cs

/-- Value of a hexadecimal digit, in either case. -/
def hexVal (c : Char) : Option Nat :=
  if 48 ≤ c.toNat ∧ c.toNat ≤ 57 then some (c.toNat - 48)
  else if 97 ≤ c.toNat ∧ c.toNat ≤ 102 then some (c.toNat - 87)
  else if 65 ≤ c.toNat ∧ c.toNat ≤ 70 then some (c.toNat - 55)
  else none

/-- Character of a one-letter escape: the letter after the backslash gives the
character it stands for. -/
def unescape (e : Char) : Option Char :=
  if e = '\"' then some '\"'
  else if e = '\\' then some '\\'
  else if e = '/' then some '/'
  else if e = 'b' then some (Char.ofNat 8)
  else if e = 'f' then some (Char.ofNat 12)
  else if e = 'n' then some '\n'
  else if e = 'r' then some '\r'
  else if e = 't' then some '\t'
  else none

/-- Value of a `\u` escape is a UTF-16 surrogate. -/
def isSurrogate (rr : Nat) : Bool :=
  decide (55296 ≤ rr ∧ rr < 57344)

/-- Character encoded by a surrogate pair of two `\u` escapes, when the first is a
high and the second a low surrogate. -/
def surrogatePair (r1 r2 : Nat) : Option Char :=
  if 55296 ≤ r1 ∧ r1 < 56320 ∧ 56320 ≤ r2 ∧ r2 < 57344 then
    some (Char.ofNat ((r1 - 55296) * 1024 + (r2 - 56320) + 65536))
  else none

/-- Replacement character U+FFFD, written for a surrogate without its partner. -/
def replacementChar : Char := Char.ofNat 65533

/-- Where the decoder stands inside a string literal: between characters, after a
backslash, or inside a `\u` escape after `digits` hexadecimal digits of value `value`. -/
inductive StringState where
  | text : StringState
  | escape : StringState
  | unicode (digits : Nat) (value : Nat) : StringState

/-- Text `out` with, in front of it, the replacement character for a surrogate that is
still waiting for its partner. -/
def flush (pending : Option Nat) (out : List Char) : List Char :=
  match pending with
  | none => out
  | some _ => replacementChar :: out

/-- Put decoded text in front of the result of the rest of a string. -/
def emit (out : List Char) : Option (List Char × List Char) → Option (List Char × List Char)
  | none => none
  | some (s, rest) => some (out ++ s, rest)

/-- End of a `\u` escape of value `rr`: the text it gives and the surrogate left waiting.
With a surrogate waiting, a pair gives its character and anything else gives the
replacement character for the waiting one; a surrogate then waits for its own partner
and any other value gives its character. -/
def finishUnicode (pending : Option Nat) (rr : Nat) : List Char × Option Nat :=
  match pending with
  | some r1 =>
    match surrogatePair r1 rr with
    | some ch => ([ch], none)
    | none =>
      if isSurrogate rr then ([replacementChar], some rr)
      else ([replacementChar, Char.ofNat rr], none)
  | none =>
    if isSurrogate rr then ([], some rr) else ([Char.ofNat rr], none)

/-- Decode a string literal after its opening quote, one character at a time: the
decoded text and the input after the closing quote.  A character below 0x20, an unknown
escape and a `\u` escape without four hexadecimal digits are rejected, and so is a
literal that does not end. -/
def parseStringFrom : StringState → Option Nat → List Char → Option (List Char × List Char)
  | _, _, [] => none
  | StringState.text, pending, c :: rest =>
    if c = '\"' then some (flush pending [], rest)
    else if c = '\\' then parseStringFrom StringState.escape pending rest
    else if c.toNat < 32 then none
    else emit (flush pending [c]) (parseStringFrom StringState.text none rest)
  | StringState.escape, pending, e :: rest =>
    if e = 'u' then parseStringFrom (StringState.unicode 0 0) pending rest
    else
      match unescape e with
      | none => none
      | some ch => emit (flush pending [ch]) (parseStringFrom StringState.text none rest)
  | StringState.unicode digits value, pending, c :: rest =>
    match hexVal c with
    | none => none
    | some x =>
      if digits < 3 then
        parseStringFrom (StringState.unicode (digits + 1) (value * 16 + x)) pending rest
      else
        emit (finishUnicode pending (value * 16 + x)).1
          (parseStringFrom StringState.text (finishUnicode pending (value * 16 + x)).2 rest)

/-- Decode a string literal after its opening quote. -/
def parseString (cs : List Char) : Option (List Char × List Char) :=
  parseStringFrom StringState.text none cs

/-- Split the leading decimal digits off the input. -/
def takeDigits : List Char → List Char × List Char
  | [] => ([], [])
  | c :: cs =>
    if 48 ≤ c.toNat ∧ c.toNat ≤ 57 then ((takeDigits cs).1.cons c, (takeDigits cs).2)
    else ([], c :: cs)

/-- Integer part of a number: a single zero, or a nonzero digit and further digits. -/
def parseInt (cs : List Char) : Option (List Char × List Char) :=
  match cs with
  | '0' :: rest => some (['0'], rest)
  | c :: rest =>
    if 49 ≤ c.toNat ∧ c.toNat ≤ 57 then some (c :: (takeDigits rest).1, (takeDigits rest).2)
    else none
  | [] => none

/-- Optional fraction of a number: a dot and at least one digit. -/
def parseFrac (cs : List Char) : Option (List Char × List Char) :=
  match cs with
  | '.' :: rest =>
    match takeDigits rest with
    | ([], _) => none
    | (ds, r) => some ('.' :: ds, r)
  | _ => some ([], cs)

/-- Digits of an exponent, at least one, after the exponent mark `e`. -/
def parseExpDigits (e : List Char) (cs : List Char) : Option (List Char × List Char) :=
  match takeDigits cs with
  | ([], _) => none
  | (ds, r) => some (e ++ ds, r)

/-- Optional exponent of a number. -/
def parseExp (cs : List Char) : Option (List Char × List Char) :=
  match cs with
  | 'e' :: '+' :: rest => parseExpDigits ['e', '+'] rest
  | 'e' :: '-' :: rest => parseExpDigits ['e', '-'] rest
  | 'E' :: '+' :: rest => parseExpDigits ['E', '+'] rest
  | 'E' :: '-' :: rest => parseExpDigits ['E', '-'] rest
  | 'e' :: rest => parseExpDigits ['e'] rest
  | 'E' :: rest => parseExpDigits ['E'] rest
  | _ => some ([], cs)

/-- Parse a number without its sign. -/
def parseNumberBody (cs : List Char) : Option (List Char × List Char) :=
  match parseInt cs with
  | none => none
  | some (i, r1) =>
    match parseFrac r1 with
    | none => none
    | some (f, r2) =>
      match parseExp r2 with
      | none => none
      | some (e, r3) => some (i ++ f ++ e, r3)

/-- Parse a number: an optional minus sign, the integer part, an optional fraction and an
optional exponent. -/
def parseNumber (cs : List Char) : Option (List Char × List Char) :=
  match cs with
  | '-' :: rest => (parseNumberBody rest).map (fun p => ('-' :: p.1, p.2))
  | _ => parseNumberBody cs

/-- Input after the text `lit`, when the input starts with it. -/
def expectText : List Char → List Char → Option (List Char)
  | [], cs => some cs
  | _ :: _, [] => none
  | l :: ls, c :: cs => if l = c then expectText ls cs else none

mutual
/-- Parse one value with the given fuel: the value and the input after it. -/
def parseValue : Nat → List Char → Option (Value × List Char)
  | 0, _ => none
  | fuel + 1, cs =>
    match skipSpace cs with
    | [] => none
    | c :: rest =>
      if c = '\"' then
        match parseString rest with
        | none => none
        | some (s, r) => some (Value.string s, r)
      else if c = '\x7b' then
        match expectText ['\x7d'] (skipSpace rest) with
        | some r => some (Value.object [], r)
        | none =>
          match parseMembers fuel rest with
          | none => none
          | some (ms, r) => some (Value.object ms, r)
      else if c = '[' then
        match expectText [']'] (skipSpace rest) with
        | some r => some (Value.array [], r)
        | none =>
          match parseElements fuel rest with
          | none => none
          | some (vs, r) => some (Value.array vs, r)
      else if c = 't' then
        match expectText ['r', 'u', 'e'] rest with
        | none => none
        | some r => some (Value.bool true, r)
      else if c = 'f' then
        match expectText ['a', 'l', 's', 'e'] rest with
        | none => none
        | some r => some (Value.bool false, r)
      else if c = 'n' then
        match expectText ['u', 'l', 'l'] rest with
        | none => none
        | some r => some (Value.null, r)
      else
        match parseNumber (c :: rest) with
        | none => none
        | some (n, r) => some (Value.number n, r)
/-- Parse the members of an object up to and including its closing brace. -/
def parseMembers : Nat → List Char → Option (List (List Char × Value) × List Char)
  | 0, _ => none
  | fuel + 1, cs =>
    match expectText ['\"'] (skipSpace cs) with
    | none => none
    | some rest =>
      match parseString rest with
      | none => none
      | some (key, r1) =>
        match expectText [':'] (skipSpace r1) with
        | none => none
        | some r2 =>
          match parseValue fuel r2 with
          | none => none
          | some (v, r3) =>
            match skipSpace r3 with
            | [] => none
            | c :: r4 =>
              if c = ',' then
                match parseMembers fuel r4 with
                | none => none
                | some (ms, r5) => some ((key, v) :: ms, r5)
              else if c = '\x7d' then some ([(key, v)], r4)
              else none
/-- Parse the elements of an array up to and including its closing bracket. -/
def parseElements : Nat → List Char → Option (List Value × List Char)
  | 0, _ => none
  | fuel + 1, cs =>
    match parseValue fuel cs with
    | none => none
    | some (v, r1) =>
      match skipSpace r1 with
      | [] => none
      | c :: r2 =>
        if c = ',' then
          match parseElements fuel r2 with
          | none => none
          | some (vs, r3) => some (v :: vs, r3)
        else if c = ']' then some ([v], r2)
        else none
end

/-- Parse a whole document: one value, with nothing but white space around it.  The
fuel bounds the depth of the recursion; no parse of `cs` is deeper than its length. -/
def parseDocument (cs : List Char) : Option Value :=
  match parseValue (cs.length + 1) cs with
  | none => none
  | some (v, rest) =>
    match skipSpace rest with
    | [] => some v
    | _ => none


/-- Document is syntactically valid (`json.Valid`). -/
def Valid (data : String) : Bool := (parseDocument data.data).isSome

/-- Member names of `HerbCrops`, from the struct tags, in declaration order. -/
def fieldNames : List (List Char) :=
  ["name".data, "family".data, "location".data, "production".data, "holder".data,
    "timestamp".data]

/-- Case folding of one character of a member name: ASCII letters fold to upper case,
the long s (U+017F) folds to `S` and the Kelvin sign (U+212A) to `K`. -/
def foldChar (c : Char) : Char :=
  if 97 ≤ c.toNat ∧ c.toNat ≤ 122 then Char.ofNat (c.toNat - 32)
  else if c.toNat = 383 then 'S'
  else if c.toNat = 8490 then 'K'
  else c

/-- First index of a list at which `p` holds. -/
def findIndex (p : List Char → Bool) : List (List Char) → Option Nat
  | [] => none
  | x :: xs => if p x then some 0 else (findIndex p xs).map (fun i => i + 1)

/-- Field a member name of the document is stored into: the field with exactly that name,
otherwise the first field whose name is equal to it under case folding. -/
def findField (key : List Char) : Option Nat :=
  match findIndex (fun n => decide (n = key)) fieldNames with
  | some i => some i
  | none => findIndex (fun n => decide (n.map foldChar = key.map foldChar)) fieldNames

/-- Store a string into the field with index `i`. -/
def setField (herb : HerbCrops) (i : Nat) (s : String) : HerbCrops :=
  match i with
  | 0 => { herb with Name := s }
  | 1 => { herb with Family := s }
  | 2 => { herb with Location := s }
  | 3 => { herb with Production := s }
  | 4 => { herb with Holder := s }
  | 5 => { herb with Timestamp := s }
  | _ => herb

/-- Store one member of the document: a string goes into its field, a `null` leaves the
field as it is, any other value is a type error and leaves the field as it is, and a
member that names no field is skipped.  The flag is the error seen so far. -/
def storeMember (acc : Bool × HerbCrops) (m : List Char × Value) : Bool × HerbCrops :=
  match findField m.1 with
  | none => acc
  | some i =>
    match m.2 with
    | Value.string s => (acc.1, setField acc.2 i ⟨s⟩)
    | Value.null => acc
    | _ => (true, acc.2)

/-- Store a parsed document into a record: the members of an object one after the other,
nothing for `null`, and a type error for any other value. -/
def storeValue (v : Value) (herb : HerbCrops) : Bool × HerbCrops :=
  match v with
  | Value.object ms => ms.foldl storeMember (false, herb)
  | Value.null => (false, herb)
  | _ => (true, herb)

/-- Decode `data` into `herb` (`json.Unmarshal(data, &herb)`): the error flag and the
record after the call.  A document that is not valid is an error and leaves the record
untouched. -/
def Unmarshal (data : String) (herb : HerbCrops) : Bool × HerbCrops :=
  match parseDocument data.data with
  | none => (true, herb)
  | some v => storeValue v herb

end json

namespace strconv

/-- Decimal text of a natural number (`strconv.Itoa` on a value that is not negative). -/
def Itoa (n : Nat) : String := Nat.repr n

end strconv

/-! ## The operations of the smart contract -/

/-- Handler `Init`: nothing is written, the response is a success without payload. -/
def Init (APIstub : ChaincodeStub) : Response × ChaincodeStub :=
  (shim.Success none, APIstub)

/-- Handler `queryHerb`: the argument count is checked first, then the bytes stored under
`args[0]` are returned as they are. -/
def queryHerb (APIstub : ChaincodeStub) (args : List String) : Response × ChaincodeStub :=
  if args.length ≠ 1 then
    (shim.Error "Incorrect number of arguments. Expecting 1", APIstub)
  else
    match APIstub.GetState (args.getD 0 "") with
    | none => (shim.Error "Could not locate herb", APIstub)
    | some herbAsBytes => (shim.Success (some herbAsBytes), APIstub)

/-- Test data written by `initLedger`, in the order of the source. -/
def herb : List HerbCrops :=
  [ { Name := "923F", Location := "67.0006, -70.5476", Timestamp := "1504054225",
      Holder := "Miriam", Family := "Some", Production := "10 kgs" },
    { Name := "M83T", Location := "91.2395, -49.4594", Timestamp := "1504057825",
      Holder := "Dave", Family := "Some", Production := "10 kgs" },
    { Name := "T012", Location := "58.0148, 59.01391", Timestamp := "1493517025",
      Holder := "Igor", Family := "Some", Production := "10 kgs" },
    { Name := "P490", Location := "-45.0945, 0.7949", Timestamp := "1496105425",
      Holder := "Amalea", Family := "Some", Production := "10 kgs" },
    { Name := "S439", Location := "-107.6043, 19.5003", Timestamp := "1493512301",
      Holder := "Rafa", Family := "Some", Production := "10 kgs" },
    { Name := "J205", Location := "-155.2304, -15.8723", Timestamp := "1494117101",
      Holder := "Shen", Family := "Some", Production := "10 kgs" },
    { Name := "S22L", Location := "103.8842, 22.1277", Timestamp := "1496104301",
      Holder := "Leila", Family := "Some", Production := "10 kgs" },
    { Name := "EI89", Location := "-132.3207, -34.0983", Timestamp := "1485066691",
      Holder := "Yuan", Family := "Some", Production := "10 kgs" },
    { Name := "129R", Location := "153.0054, 12.6429", Timestamp := "1485153091",
      Holder := "Carlo", Family := "Some", Production := "10 kgs" },
    { Name := "49W4", Location := "51.9435, 8.2735", Timestamp := "1487745091",
      Holder := "Fatima", Family := "Some", Production := "10 kgs" } ]

/-- Record without any field set, the zero value `HerbCrops{}`. -/
def emptyHerb : HerbCrops :=
  { Name := "", Family := "", Location := "", Production := "", Holder := "", Timestamp := "" }

/-- Loop of `initLedger` from index `i`: while `i < len(herb)` the record at `i` is
encoded and written under the decimal text of `i + 1`; the error of the write is dropped.
The first argument bounds the number of rounds. -/
def initLedgerLoop : Nat → Nat → ChaincodeStub → ChaincodeStub
  | 0, _, APIstub => APIstub
  | fuel + 1, i, APIstub =>
    if i < herb.length then
      let herbAsBytes := json.Marshal (herb.getD i emptyHerb)
      initLedgerLoop fuel (i + 1) (APIstub.PutState (strconv.Itoa (i + 1)) herbAsBytes).2
    else APIstub

/-- Handler `initLedger`: the ten records of the test data are written, then the response
is a success without payload. -/
def initLedger (APIstub : ChaincodeStub) : Response × ChaincodeStub :=
  (shim.Success none, initLedgerLoop herb.length 0 APIstub)

/-- Handler `recordHerb`: the argument count is checked first; the record is built from
`args[1..4]` with `Family` and `Production` left at the zero value, encoded and written
under `args[0]`. -/
def recordHerb (APIstub : ChaincodeStub) (args : List String) : Response × ChaincodeStub :=
  if args.length ≠ 5 then
    (shim.Error "Incorrect number of arguments. Expecting 5", APIstub)
  else
    let herb : HerbCrops :=
      { emptyHerb with Name := args.getD 1 "", Location := args.getD 2 "",
                       Timestamp := args.getD 3 "", Holder := args.getD 4 "" }
    let herbAsBytes := json.Marshal herb
    let res := APIstub.PutState (args.getD 0 "") herbAsBytes
    if res.1 then
      (shim.Error ("Failed to record herbs plucked: " ++ args.getD 0 ""), res.2)
    else (shim.Success none, res.2)

/-- Loop of `queryAllHerbs` over the iterator: an error of `Next` ends the call with that
error; otherwise a comma is written before every row but the first, then the key between
quotes and the value as it is. -/
def queryAllHerbsLoop :
    List (Except String (String × String)) → Bool → String → Except String String
  | [], _, buffer => Except.ok buffer
  | Except.error err :: _, _, _ => Except.error err
  | Except.ok queryResponse :: resultsIterator, bArrayMemberAlreadyWritten, buffer =>
    let buffer := if bArrayMemberAlreadyWritten = true then buffer ++ "," else buffer
    let buffer := buffer ++ "\x7b\"Key\":"
    let buffer := buffer ++ "\""
    let buffer := buffer ++ queryResponse.1
    let buffer := buffer ++ "\""
    let buffer := buffer ++ ", \"Record\":"
    let buffer := buffer ++ queryResponse.2
    let buffer := buffer ++ "\x7d"
    queryAllHerbsLoop resultsIterator true buffer

/-- Handler `queryAllHerbs`: a scan from `"0"` to `"999"`, every row written into a
buffer between `[` and `]`. -/
def queryAllHerbs (APIstub : ChaincodeStub) : Response × ChaincodeStub :=
  let startKey := "0"
  let endKey := "999"
  match APIstub.GetStateByRange startKey endKey with
  | Except.error err => (shim.Error err, APIstub)
  | Except.ok resultsIterator =>
    match queryAllHerbsLoop resultsIterator false "[" with
    | Except.error err => (shim.Error err, APIstub)
    | Except.ok buffer => (shim.Success (some (buffer ++ "]")), APIstub)

/-- Handler `changeHerbHolder`: the argument count is checked first; the bytes under
`args[0]` are decoded into a fresh record (the error of the decoder is dropped), the
holder is set to `args[1]`, and the record is encoded and written back. -/
def changeHerbHolder (APIstub : ChaincodeStub) (args : List String) :
    Response × ChaincodeStub :=
  if args.length ≠ 2 then
    (shim.Error "Incorrect number of arguments. Expecting 2", APIstub)
  else
    match APIstub.GetState (args.getD 0 "") with
    | none => (shim.Error "Could not locate herb", APIstub)
    | some herbAsBytes =>
      let herb := (json.Unmarshal herbAsBytes emptyHerb).2
      let herb := { herb with Holder := args.getD 1 "" }
      let herbAsBytes := json.Marshal herb
      let res := APIstub.PutState (args.getD 0 "") herbAsBytes
      if res.1 then
        (shim.Error ("Failed to change herb production holder: " ++ args.getD 0 ""), res.2)
      else (shim.Success none, res.2)

/-- Handler `Invoke`: route the call to the operation named by `function`. -/
def Invoke (APIstub : ChaincodeStub) (function : String) (args : List String) :
    Response × ChaincodeStub :=
  if function = "queryHerb" then queryHerb APIstub args
  else if function = "initLedger" then initLedger APIstub
  else if function = "recordHerb" then recordHerb APIstub args
  else if function = "queryAllHerb" then queryAllHerbs APIstub
  else if function = "changeHerbHolder" then changeHerbHolder APIstub args
  else (shim.Error "Invalid Smart Contract function name.", APIstub)

/-! ## Reading a response -/

/-- Text of one row as the result set is documented: an object with the member `Key`, the
key between quotes, and the member `Record`, the raw value. -/
def expectedRow (row : String × String) : String :=
  "\x7b\"Key\":\"" ++ row.1 ++ "\", \"Record\":" ++ row.2 ++ "\x7d"

/-- Body of the response as the result set is documented: the rows in their order,
separated by single commas, between `[` and `]`. -/
def expectedBody (rows : List (String × String)) : String :=
  "[" ++ ",".intercalate (rows.map expectedRow) ++ "]"

/-- Rows a scan of the ledger from `"0"` to `"999"` returns. -/
def scanRows (APIstub : ChaincodeStub) : List (String × String) :=
  APIstub.state.entries.filter (fun e => inRange "0" "999" e.1)

/-- Stub over the empty ledger on which no call reports an error. -/
def emptyStub : ChaincodeStub :=
  { state := WorldState.empty, putErr := fun _ => false, rangeErr := none }

/-- Ledger after the write of record `i` of the test data under the decimal text of
`i + 1`. -/
def seedWrite (s : WorldState) (i : Nat) : WorldState :=
  s.put (strconv.Itoa (i + 1)) (json.Marshal (herb.getD i emptyHerb))

/-- Ledger after the ten writes of `initLedger`, each accepted by the store. -/
def seeded (s : WorldState) : WorldState :=
  (List.range herb.length).foldl seedWrite s

/-- Stub over the empty ledger on which every `PutState` reports an error. -/
def failingStub : ChaincodeStub :=
  { state := WorldState.empty, putErr := fun _ => true, rangeErr := none }

/-- One round of the loop of `initLedger` on the ledger: the write of record `i`, which
leaves the ledger as it was when the store reports an error for its key. -/
def seedRound (putErr : String → Bool) (s : WorldState) (i : Nat) : WorldState :=
  if putErr (strconv.Itoa (i + 1)) then s else seedWrite s i

/-- Stub after a sequence of calls of `Invoke`, each call given as the function name and
the arguments. -/
def invokeAll (APIstub : ChaincodeStub) : List (String × List String) → ChaincodeStub
  | [] => APIstub
  | call :: calls => invokeAll (Invoke APIstub call.1 call.2).2 calls

/-- Stub over a ledger whose entry under the key `1` is not a valid document. -/
def brokenStub : ChaincodeStub :=
  { state := WorldState.empty.put "1" "oops", putErr := fun _ => false, rangeErr := none }

/-- Ledger with two entries in the range of the scan and one outside of it. -/
def sampleStub : ChaincodeStub :=
  { state := ((WorldState.empty.put "2" "true").put "A" "null").put "1" "\x7b\"name\":\"a\"\x7d",
    putErr := fun _ => false, rangeErr := none }

namespace json

/-- Member `name` of a parsed object, the last one when the name is repeated. -/
def Value.member (name : String) : Value → Option Value
  | Value.object ms =>
    (ms.reverse.find? (fun m => decide (m.1 = name.data))).map (fun m => m.2)
  | _ => none

/-- Text of a parsed string. -/
def Value.text : Value → Option String
  | Value.string s => some ⟨s⟩
  | _ => none

/-- Names of the members of a parsed object. -/
def Value.memberNames : Value → Option (List String)
  | Value.object ms => some (ms.map (fun m => ⟨m.1⟩))
  | _ => none

/-- Elements of a parsed array. -/
def Value.elements : Value → Option (List Value)
  | Value.array vs => some vs
  | _ => none

/-- Document a record is encoded as: an object of six strings. -/
def recordValue (r : HerbCrops) : Value :=
  Value.object
    [ ("name".data, Value.string r.Name.data), ("family".data, Value.string r.Family.data),
      ("location".data, Value.string r.Location.data),
      ("production".data, Value.string r.Production.data),
      ("holder".data, Value.string r.Holder.data),
      ("timestamp".data, Value.string r.Timestamp.data) ]

/-- Row read back from a response body: the names of the members of the element, the text
of its member `Key`, and its member `Record` decoded into a fresh record together with
the error flag of the decoder. -/
structure ReadRow where
  members : Option (List String)
  key : Option String
  record : Option (Bool × HerbCrops)
deriving DecidableEq

/-- Rows read back from a response body, when the body is a document that is an array. -/
def readRows (payload : String) : Option (List ReadRow) :=
  ((parseDocument payload.data).bind Value.elements).map (fun es =>
    es.map (fun e =>
      { members := e.memberNames, key := (e.member "Key").bind Value.text,
        record := (e.member "Record").map (fun d => storeValue d emptyHerb) }))

/-- Row read back for record `i` of the test data: the members `Key` and `Record`, the
decimal text of `i + 1` as key, and the record itself, decoded without error. -/
def seededRow (i : Nat) : ReadRow :=
  { members := some ["Key", "Record"], key := some (strconv.Itoa (i + 1)),
    record := some (false, herb.getD i emptyHerb) }

/-- Rows read back after `initLedger` on the empty ledger, in ascending key order. -/
def seededRows : List ReadRow :=
  [0, 9, 1, 2, 3, 4, 5, 6, 7, 8].map seededRow

end json

/-! ## Byte strings

A string of Go is a sequence of bytes, and the arguments of a call reach a handler as the
raw bytes the caller sent.  The definitions above read a string as text; the definitions
below give the handlers that build a record on the raw bytes of their arguments.  The
encoder reads a byte string rune by rune and writes `\ufffd` for every byte that is not
part of a valid UTF-8 sequence. -/

/-- Byte string of Go; every element stands for one byte. -/
abbrev Bytes := List Nat

namespace utf8

/-- Bytes of the UTF-8 encoding of one character (`utf8.EncodeRune`). -/
def EncodeRune (c : Char) : Bytes :=
  if c.toNat < 128 then [c.toNat]
  else if c.toNat < 2048 then [192 + c.toNat / 64, 128 + c.toNat % 64]
  else if c.toNat < 65536 then
    [224 + c.toNat / 4096, 128 + c.toNat / 64 % 64, 128 + c.toNat % 64]
  else
    [240 + c.toNat / 262144, 128 + c.toNat / 4096 % 64, 128 + c.toNat / 64 % 64,
      128 + c.toNat % 64]

/-- Number of bytes of the sequence a first byte announces (the table `first`): 1 for
ASCII, 2 to 4 for the first byte of a longer sequence, 0 for a byte that starts none. -/
def sequenceSize (b0 : Nat) : Nat :=
  if b0 < 128 then 1
  else if b0 < 194 then 0
  else if b0 < 224 then 2
  else if b0 < 240 then 3
  else if b0 < 245 then 4
  else 0

/-- Lowest and highest second byte accepted after the first byte `b0` (the table
`acceptRanges`). -/
def acceptRange (b0 : Nat) : Nat × Nat :=
  if b0 = 224 then (160, 191)
  else if b0 = 237 then (128, 159)
  else if b0 = 240 then (144, 191)
  else if b0 = 244 then (128, 143)
  else (128, 191)

/-- Byte is a continuation byte, from `0x80` to `0xBF`. -/
def isContinuation (b : Nat) : Bool :=
  decide (128 ≤ b ∧ b ≤ 191)

/-- First rune of a byte string and the number of bytes it takes (`utf8.DecodeRune`); the
rune is `none`, with one byte taken, where Go gives `RuneError` for a byte that is not
part of a valid sequence. -/
def DecodeRune (p : Bytes) : Option Char × Nat :=
  match p with
  | [] => (none, 0)
  | b0 :: rest =>
    if b0 < 128 then (some (Char.ofNat b0), 1)
    else if sequenceSize b0 = 0 then (none, 1)
    else
      match rest with
      | [] => (none, 1)
      | b1 :: rest1 =>
        if b1 < (acceptRange b0).1 ∨ (acceptRange b0).2 < b1 then (none, 1)
        else if sequenceSize b0 = 2 then
          (some (Char.ofNat ((b0 - 192) * 64 + (b1 - 128))), 2)
        else
          match rest1 with
          | [] => (none, 1)
          | b2 :: rest2 =>
            if isContinuation b2 = false then (none, 1)
            else if sequenceSize b0 = 3 then
              (some (Char.ofNat ((b0 - 224) * 4096 + (b1 - 128) * 64 + (b2 - 128))), 3)
            else
              match rest2 with
              | [] => (none, 1)
              | b3 :: _ =>
                if isContinuation b3 = false then (none, 1)
                else
                  (some (Char.ofNat ((b0 - 240) * 262144 + (b1 - 128) * 4096
                    + (b2 - 128) * 64 + (b3 - 128))), 4)

/-- Runes of a byte string in the order a loop over it decodes them, `none` for each
byte that is not part of a valid sequence.  The first argument bounds the rounds. -/
def decodeAll : Nat → Bytes → List (Option Char)
  | 0, _ => []
  | fuel + 1, p =>
    if p = [] then []
    else (DecodeRune p).1 :: decodeAll fuel (p.drop (DecodeRune p).2)

/-- Runes of a byte string; no string has more runes than bytes. -/
def runes (p : Bytes) : List (Option Char) :=
  decodeAll p.length p

/-- Bytes of the UTF-8 encoding of a sequence of characters. -/
def encodeChars : List Char → Bytes
  | [] => []
  | c :: cs => EncodeRune c ++ encodeChars cs

/-- Bytes of a text, its UTF-8 encoding. -/
def bytes (s : String) : Bytes :=
  encodeChars s.data

/-- Text that is read back from the encoding of a byte string: its runes, with U+FFFD
for each byte that is not part of a valid sequence. -/
def coerced (p : Bytes) : List Char :=
  (runes p).map (fun r => r.getD json.replacementChar)

/-- Characters of a list of runes when none of them is invalid. -/
def allValid : List (Option Char) → Option (List Char)
  | [] => some []
  | none :: _ => none
  | some c :: rest =>
    match allValid rest with
    | none => none
    | some cs => some (c :: cs)

/-- Text a byte string is the encoding of, when it is valid UTF-8. -/
def text? (p : Bytes) : Option String :=
  match allValid (runes p) with
  | none => none
  | some cs => some ⟨cs⟩

end utf8

/-- Herb record as the struct of Go holds it: six byte strings. -/
structure RawHerbCrops where
  Name : Bytes
  Family : Bytes
  Location : Bytes
  Production : Bytes
  Holder : Bytes
  Timestamp : Bytes
deriving DecidableEq

/-- Record without any field set, on byte strings. -/
def emptyRawHerb : RawHerbCrops :=
  { Name := [], Family := [], Location := [], Production := [], Holder := [], Timestamp := [] }

namespace json

/-- Text the encoder writes for one rune of a byte string: the escape `\ufffd` for a byte
that is not part of a valid sequence, and the text of `escapeChar` for a character. -/
def escapeRune : Option Char → List Char
  | none => ['\\', 'u', 'f', 'f', 'f', 'd']
  | some c => escapeChar c

/-- Body of an encoded byte string, without the surrounding quotes. -/
def escapeRunes : List (Option Char) → List Char
  | [] => []
  | r :: rs => escapeRune r ++ escapeRunes rs

/-- Encoded string value of a byte string. -/
def encodeStringRaw (p : Bytes) : List Char :=
  '\"' :: (escapeRunes (utf8.runes p) ++ ['\"'])

/-- Encoding of a record of byte strings (`json.Marshal` on the struct of Go). -/
def MarshalRaw (herb : RawHerbCrops) : String :=
  ⟨"\x7b\"name\":".data ++ encodeStringRaw herb.Name
    ++ ",\"family\":".data ++ encodeStringRaw herb.Family
    ++ ",\"location\":".data ++ encodeStringRaw herb.Location
    ++ ",\"production\":".data ++ encodeStringRaw herb.Production
    ++ ",\"holder\":".data ++ encodeStringRaw herb.Holder
    ++ ",\"timestamp\":".data ++ encodeStringRaw herb.Timestamp
    ++ "\x7d".data⟩

/-- Store the bytes `p` into the field with index `i` of a record of byte strings. -/
def setFieldRaw (herb : RawHerbCrops) (i : Nat) (p : Bytes) : RawHerbCrops :=
  match i with
  | 0 => { herb with Name := p }
  | 1 => { herb with Family := p }
  | 2 => { herb with Location := p }
  | 3 => { herb with Production := p }
  | 4 => { herb with Holder := p }
  | 5 => { herb with Timestamp := p }
  | _ => herb

/-- Store one member of the document into a record of byte strings, as `storeMember`
does for text: a string goes into its field as the bytes of its text. -/
def storeMemberRaw (acc : Bool × RawHerbCrops) (m : List Char × Value) :
    Bool × RawHerbCrops :=
  match findField m.1 with
  | none => acc
  | some i =>
    match m.2 with
    | Value.string s => (acc.1, setFieldRaw acc.2 i (utf8.encodeChars s))
    | Value.null => acc
    | _ => (true, acc.2)

/-- Store a parsed document into a record of byte strings. -/
def storeValueRaw (v : Value) (herb : RawHerbCrops) : Bool × RawHerbCrops :=
  match v with
  | Value.object ms => ms.foldl storeMemberRaw (false, herb)
  | Value.null => (false, herb)
  | _ => (true, herb)

/-- Decode `data` into a record of byte strings (`json.Unmarshal` on the struct of Go):
the error flag and the record after the call. -/
def UnmarshalRaw (data : String) (herb : RawHerbCrops) : Bool × RawHerbCrops :=
  match parseDocument data.data with
  | none => (true, herb)
  | some v => storeValueRaw v herb

end json

/-- Record whose fields are the UTF-8 bytes of the fields of a record of text. -/
def HerbCrops.bytes (herb : HerbCrops) : RawHerbCrops :=
  { Name := utf8.bytes herb.Name, Family := utf8.bytes herb.Family,
    Location := utf8.bytes herb.Location, Production := utf8.bytes herb.Production,
    Holder := utf8.bytes herb.Holder, Timestamp := utf8.bytes herb.Timestamp }

/-- Handler `recordHerb` on the raw bytes of its arguments: the record is built from the
byte strings `args[1..4]` and encoded; the key `args[0]` is handed to the ledger, which
is keyed by text, so the result is `none` for a key that is not valid UTF-8. -/
def recordHerbRaw (APIstub : ChaincodeStub) (args : List Bytes) :
    Option (Response × ChaincodeStub) :=
  if args.length ≠ 5 then
    some (shim.Error "Incorrect number of arguments. Expecting 5", APIstub)
  else
    let herb : RawHerbCrops :=
      { emptyRawHerb with Name := args.getD 1 [], Location := args.getD 2 [],
                          Timestamp := args.getD 3 [], Holder := args.getD 4 [] }
    let herbAsBytes := json.MarshalRaw herb
    match utf8.text? (args.getD 0 []) with
    | none => none
    | some key =>
      let res := APIstub.PutState key herbAsBytes
      if res.1 then some (shim.Error ("Failed to record herbs plucked: " ++ key), res.2)
      else some (shim.Success none, res.2)

/-- Handler `changeHerbHolder` on the raw bytes of its arguments: the stored bytes are
decoded into a fresh record, the holder is set to the byte string `args[1]`, and the
record is encoded and written back; the result is `none` for a key that is not valid
UTF-8. -/
def changeHerbHolderRaw (APIstub : ChaincodeStub) (args : List Bytes) :
    Option (Response × ChaincodeStub) :=
  if args.length ≠ 2 then
    some (shim.Error "Incorrect number of arguments. Expecting 2", APIstub)
  else
    match utf8.text? (args.getD 0 []) with
    | none => none
    | some key =>
      match APIstub.GetState key with
      | none => some (shim.Error "Could not locate herb", APIstub)
      | some herbAsBytes =>
        let herb := (json.UnmarshalRaw herbAsBytes emptyRawHerb).2
        let herb := { herb with Holder := args.getD 1 [] }
        let herbAsBytes := json.MarshalRaw herb
        let res := APIstub.PutState key herbAsBytes
        if res.1 then
          some (shim.Error ("Failed to change herb production holder: " ++ key), res.2)
        else some (shim.Success none, res.2)

/-! ## Theorems -/

namespace json

/-! ### The decoder undoes the encoder -/

theorem parseStringFrom_quote (tail : List Char) :
    parseStringFrom StringState.text none ('\"' :: tail) = some ([], tail) := by
  simp [parseStringFrom, flush]

theorem parseStringFrom_plain (c : Char) (tail : List Char) (h1 : c ≠ '\"') (h2 : c ≠ '\\')
    (h3 : ¬ c.toNat < 32) :
    parseStringFrom StringState.text none (c :: tail)
      = emit [c] (parseStringFrom StringState.text none tail) := by
  simp [parseStringFrom, flush, h1, h2, h3]

theorem parseStringFrom_escape (e ch : Char) (tail : List Char) (h1 : e ≠ 'u')
    (h2 : unescape e = some ch) :
    parseStringFrom StringState.text none ('\\' :: e :: tail)
      = emit [ch] (parseStringFrom StringState.text none tail) := by
  simp [parseStringFrom, flush, h1, h2]

theorem parseStringFrom_u4 (a b c d : Char) (x y z w : Nat) (tail : List Char)
    (ha : hexVal a = some x) (hb : hexVal b = some y) (hc : hexVal c = some z)
    (hd : hexVal d = some w) (hs : isSurrogate (((x * 16 + y) * 16 + z) * 16 + w) = false) :
    parseStringFrom StringState.text none ('\\' :: 'u' :: a :: b :: c :: d :: tail)
      = emit [Char.ofNat (((x * 16 + y) * 16 + z) * 16 + w)]
          (parseStringFrom StringState.text none tail) := by
  simp [parseStringFrom, flush, ha, hb, hc, hd, finishUnicode, hs]

theorem hexVal_hexDigit : ∀ n, n < 16 → hexVal (hexDigit n) = some n := by decide

theorem parseStringFrom_escapeChar (c : Char) (tail : List Char) :
    parseStringFrom StringState.text none (escapeChar c ++ tail)
      = emit [c] (parseStringFrom StringState.text none tail) := by
  unfold escapeChar
  split_ifs with h1 h2 h3 h4 h5 h6
  · rcases h1 with rfl | rfl
    · exact parseStringFrom_escape '\\' '\\' tail (by decide) (by decide)
    · exact parseStringFrom_escape '\"' '\"' tail (by decide) (by decide)
  · subst h2; exact parseStringFrom_escape 'n' '\n' tail (by decide) (by decide)
  · subst h3; exact parseStringFrom_escape 'r' '\r' tail (by decide) (by decide)
  · subst h4; exact parseStringFrom_escape 't' '\t' tail (by decide) (by decide)
  · have hn : c.toNat < 128 := by
      rcases h5 with h | rfl | rfl | rfl
      · omega
      all_goals decide
    have key := parseStringFrom_u4 '0' '0' (hexDigit (c.toNat / 16)) (hexDigit (c.toNat % 16))
      0 0 (c.toNat / 16) (c.toNat % 16) tail (by decide) (by decide)
      (hexVal_hexDigit _ (by omega)) (hexVal_hexDigit _ (by omega))
      (by simp only [isSurrogate, decide_eq_false_iff_not]; omega)
    have e : ((0 * 16 + 0) * 16 + c.toNat / 16) * 16 + c.toNat % 16 = c.toNat := by omega
    rw [e, Char.ofNat_toNat] at key
    simpa using key
  · have key := parseStringFrom_u4 '2' '0' '2' (hexDigit (c.toNat % 16))
      2 0 2 (c.toNat % 16) tail (by decide) (by decide) (by decide)
      (hexVal_hexDigit _ (by omega))
      (by simp only [isSurrogate, decide_eq_false_iff_not]; omega)
    have e : ((2 * 16 + 0) * 16 + 2) * 16 + c.toNat % 16 = c.toNat := by omega
    rw [e, Char.ofNat_toNat] at key
    simpa using key
  · push_neg at h1 h5
    exact parseStringFrom_plain c tail h1.2 h1.1 (by omega)

theorem parseString_escapeChars (s tail : List Char) :
    parseString (escapeChars s ++ '\"' :: tail) = some (s, tail) := by
  unfold parseString
  induction s with
  | nil => exact parseStringFrom_quote tail
  | cons c cs ih =>
    simp only [escapeChars, List.append_assoc]
    rw [parseStringFrom_escapeChar, ih]
    rfl

theorem parseValue_string (f : Nat) (s : String) (tail : List Char) :
    parseValue (f + 1) (encodeString s ++ tail) = some (Value.string s.data, tail) := by
  have h := parseString_escapeChars s.data tail
  simp [parseValue, encodeString, skipSpace, h]

theorem parseMembers_more (f : Nat) (key : List Char) (s : String) (tail : List Char)
    (hk : escapeChars key = key) :
    parseMembers (f + 2) ('\"' :: (key ++ '\"' :: ':' :: (encodeString s ++ ',' :: tail)))
      = (parseMembers (f + 1) tail).map (fun p => ((key, Value.string s.data) :: p.1, p.2)) := by
  have h := parseString_escapeChars key (':' :: (encodeString s ++ ',' :: tail))
  rw [hk] at h
  have hv := parseValue_string f s (',' :: tail)
  rw [parseMembers]
  simp only [skipSpace, expectText, h, hv, if_true, if_false]
  simp
  cases parseMembers (f + 1) tail <;> rfl

theorem parseMembers_last (f : Nat) (key : List Char) (s : String) (tail : List Char)
    (hk : escapeChars key = key) :
    parseMembers (f + 2) ('\"' :: (key ++ '\"' :: ':' :: (encodeString s ++ '\x7d' :: tail)))
      = some ([(key, Value.string s.data)], tail) := by
  have h := parseString_escapeChars key (':' :: (encodeString s ++ '\x7d' :: tail))
  rw [hk] at h
  have hv := parseValue_string f s ('\x7d' :: tail)
  simp [parseMembers, expectText, h, skipSpace, hv]

theorem Marshal_data (r : HerbCrops) :
    (Marshal r).data = '\x7b' :: '\"' :: ("name".data ++ '\"' :: ':' :: (encodeString r.Name
      ++ ',' :: '\"' :: ("family".data ++ '\"' :: ':' :: (encodeString r.Family
      ++ ',' :: '\"' :: ("location".data ++ '\"' :: ':' :: (encodeString r.Location
      ++ ',' :: '\"' :: ("production".data ++ '\"' :: ':' :: (encodeString r.Production
      ++ ',' :: '\"' :: ("holder".data ++ '\"' :: ':' :: (encodeString r.Holder
      ++ ',' :: '\"' :: ("timestamp".data ++ '\"' :: ':' :: (encodeString r.Timestamp
      ++ '\x7d' :: [])))))))))))) := by
  simp [Marshal]

theorem parseValue_Marshal (r : HerbCrops) (f : Nat) :
    parseValue (f + 8) (Marshal r).data = some (recordValue r, []) := by
  rw [Marshal_data, parseValue]
  simp only [skipSpace]
  simp only [show ('\x7b' = ' ' ∨ '\x7b' = '\t' ∨ '\x7b' = '\r' ∨ '\x7b' = '\n') = False by decide,
    if_false]
  rw [show f + 7 = (f + 5) + 2 by rfl, parseMembers_more _ _ _ _ (by decide)]
  rw [show f + 5 + 1 = (f + 4) + 2 by rfl, parseMembers_more _ _ _ _ (by decide)]
  rw [show f + 4 + 1 = (f + 3) + 2 by rfl, parseMembers_more _ _ _ _ (by decide)]
  rw [show f + 3 + 1 = (f + 2) + 2 by rfl, parseMembers_more _ _ _ _ (by decide)]
  rw [show f + 2 + 1 = (f + 1) + 2 by rfl, parseMembers_more _ _ _ _ (by decide)]
  rw [show f + 1 + 1 = f + 2 by rfl, parseMembers_last _ _ _ _ (by decide)]
  simp [expectText, skipSpace, recordValue]

theorem Marshal_length (r : HerbCrops) : ∃ f, (Marshal r).data.length + 1 = f + 8 := by
  refine ⟨(Marshal r).data.length - 7, ?_⟩
  have h : 7 ≤ (Marshal r).data.length := by
    rw [Marshal_data]
    simp only [List.length_cons, List.length_append]
    omega
  omega

theorem parseDocument_Marshal (r : HerbCrops) :
    parseDocument (Marshal r).data = some (recordValue r) := by
  obtain ⟨f, hf⟩ := Marshal_length r
  unfold parseDocument
  rw [hf, parseValue_Marshal]
  rfl

theorem storeValue_recordValue (r h0 : HerbCrops) :
    storeValue (recordValue r) h0 = (false, r) := by
  have e1 : findField "name".data = some 0 := by decide
  have e2 : findField "family".data = some 1 := by decide
  have e3 : findField "location".data = some 2 := by decide
  have e4 : findField "production".data = some 3 := by decide
  have e5 : findField "holder".data = some 4 := by decide
  have e6 : findField "timestamp".data = some 5 := by decide
  simp [storeValue, recordValue, storeMember, e1, e2, e3, e4, e5, e6, setField]

theorem Unmarshal_Marshal (r h0 : HerbCrops) : Unmarshal (Marshal r) h0 = (false, r) := by
  unfold Unmarshal
  rw [parseDocument_Marshal]
  exact storeValue_recordValue r h0

end json

/-! ### The fuel of the parser

A parse that succeeds with some fuel succeeds, with the same result, with the fuel
`parseDocument` gives it: the length of the input plus one. -/

namespace json

theorem skipSpace_length (cs : List Char) : (skipSpace cs).length ≤ cs.length := by
  induction cs with
  | nil => simp [skipSpace]
  | cons c cs ih =>
    unfold skipSpace
    split_ifs
    · exact Nat.le_succ_of_le ih
    · exact Nat.le_refl _

theorem expectText_length (lit cs r : List Char) (h : expectText lit cs = some r) :
    r.length ≤ cs.length := by
  induction lit generalizing cs with
  | nil =>
    simp only [expectText, Option.some.injEq] at h
    rw [h]
  | cons l ls ih =>
    cases cs with
    | nil => simp [expectText] at h
    | cons c cs =>
      simp only [expectText] at h
      split_ifs at h
      exact Nat.le_succ_of_le (ih cs h)

theorem expectText_length_lt (l : Char) (ls cs r : List Char)
    (h : expectText (l :: ls) cs = some r) : r.length < cs.length := by
  cases cs with
  | nil => simp [expectText] at h
  | cons c cs =>
    simp only [expectText] at h
    split_ifs at h
    exact Nat.lt_succ_of_le (expectText_length ls cs r h)

theorem emit_some (out : List Char) (x : Option (List Char × List Char)) (s r : List Char)
    (h : emit out x = some (s, r)) : ∃ s1, x = some (s1, r) := by
  cases x with
  | none => simp [emit] at h
  | some p =>
    obtain ⟨s1, r1⟩ := p
    simp only [emit, Option.some.injEq, Prod.mk.injEq] at h
    exact ⟨s1, by rw [h.2]⟩

theorem parseStringFrom_length (cs : List Char) :
    ∀ (st : StringState) (pending : Option Nat) (s r : List Char),
      parseStringFrom st pending cs = some (s, r) → r.length < cs.length := by
  induction cs with
  | nil => intro st pending s r h; cases st <;> simp [parseStringFrom] at h
  | cons c cs ih =>
    intro st pending s r h
    cases st with
    | text =>
      simp only [parseStringFrom] at h
      split_ifs at h with h1 h2 h3
      · simp only [Option.some.injEq, Prod.mk.injEq] at h
        rw [← h.2]; exact Nat.lt_succ_self _
      · exact Nat.lt_succ_of_lt (ih _ _ _ _ h)
      · obtain ⟨s1, h4⟩ := emit_some _ _ _ _ h
        exact Nat.lt_succ_of_lt (ih _ _ _ _ h4)
    | escape =>
      simp only [parseStringFrom] at h
      split_ifs at h with h1
      · exact Nat.lt_succ_of_lt (ih _ _ _ _ h)
      · split at h
        · simp at h
        · obtain ⟨s1, h4⟩ := emit_some _ _ _ _ h
          exact Nat.lt_succ_of_lt (ih _ _ _ _ h4)
    | unicode digits value =>
      simp only [parseStringFrom] at h
      split at h
      · simp at h
      · split_ifs at h with h1
        · exact Nat.lt_succ_of_lt (ih _ _ _ _ h)
        · obtain ⟨s1, h4⟩ := emit_some _ _ _ _ h
          exact Nat.lt_succ_of_lt (ih _ _ _ _ h4)

theorem parseString_length (cs s r : List Char) (h : parseString cs = some (s, r)) :
    r.length < cs.length :=
  parseStringFrom_length cs _ _ s r h

theorem takeDigits_length (cs : List Char) : (takeDigits cs).2.length ≤ cs.length := by
  induction cs with
  | nil => simp [takeDigits]
  | cons c cs ih =>
    unfold takeDigits
    split_ifs
    · exact Nat.le_succ_of_le ih
    · exact Nat.le_refl _

theorem parseInt_length (cs n r : List Char) (h : parseInt cs = some (n, r)) :
    r.length < cs.length := by
  unfold parseInt at h
  split at h
  · simp only [Option.some.injEq, Prod.mk.injEq] at h
    rw [← h.2]; exact Nat.lt_succ_self _
  · split_ifs at h
    simp only [Option.some.injEq, Prod.mk.injEq] at h
    rw [← h.2]; exact Nat.lt_succ_of_le (takeDigits_length _)
  · simp at h

theorem parseFrac_length (cs n r : List Char) (h : parseFrac cs = some (n, r)) :
    r.length ≤ cs.length := by
  unfold parseFrac at h
  split at h
  · split at h
    · simp at h
    · rename_i rest _ ds r1 _ heq
      simp only [Option.some.injEq, Prod.mk.injEq] at h
      have := takeDigits_length rest
      rw [heq] at this
      rw [← h.2]; exact Nat.le_succ_of_le this
  · simp only [Option.some.injEq, Prod.mk.injEq] at h
    rw [← h.2]

theorem parseExpDigits_length (e cs n r : List Char)
    (h : parseExpDigits e cs = some (n, r)) : r.length ≤ cs.length := by
  unfold parseExpDigits at h
  split at h
  · simp at h
  · rename_i ds r1 _ heq
    simp only [Option.some.injEq, Prod.mk.injEq] at h
    have := takeDigits_length cs
    rw [heq] at this
    rw [← h.2]; exact this

theorem parseExp_length (cs n r : List Char) (h : parseExp cs = some (n, r)) :
    r.length ≤ cs.length := by
  unfold parseExp at h
  split at h
  · have := parseExpDigits_length _ _ _ _ h; simp only [List.length_cons]; omega
  · have := parseExpDigits_length _ _ _ _ h; simp only [List.length_cons]; omega
  · have := parseExpDigits_length _ _ _ _ h; simp only [List.length_cons]; omega
  · have := parseExpDigits_length _ _ _ _ h; simp only [List.length_cons]; omega
  · have := parseExpDigits_length _ _ _ _ h; simp only [List.length_cons]; omega
  · have := parseExpDigits_length _ _ _ _ h; simp only [List.length_cons]; omega
  · simp only [Option.some.injEq, Prod.mk.injEq] at h
    rw [← h.2]

theorem parseNumberBody_length (cs n r : List Char) (h : parseNumberBody cs = some (n, r)) :
    r.length < cs.length := by
  unfold parseNumberBody at h
  split at h
  · simp at h
  · rename_i i r1 h1
    split at h
    · simp at h
    · rename_i f r2 h2
      split at h
      · simp at h
      · rename_i e r3 h3
        simp only [Option.some.injEq, Prod.mk.injEq] at h
        have a1 := parseInt_length _ _ _ h1
        have a2 := parseFrac_length _ _ _ h2
        have a3 := parseExp_length _ _ _ h3
        rw [← h.2]; omega

theorem parseNumber_length (cs n r : List Char) (h : parseNumber cs = some (n, r)) :
    r.length < cs.length := by
  unfold parseNumber at h
  split at h
  · rename_i rest
    cases hb : parseNumberBody rest with
    | none => simp [hb] at h
    | some p =>
      obtain ⟨n1, r1⟩ := p
      simp only [hb, Option.map_some', Option.some.injEq, Prod.mk.injEq] at h
      have := parseNumberBody_length _ _ _ hb
      rw [← h.2]; simp only [List.length_cons]; omega
  · exact parseNumberBody_length _ _ _ h

theorem parse_fuel_enough (f : Nat) :
    (∀ cs v r, parseValue f cs = some (v, r) →
        r.length < cs.length ∧ ∀ g, cs.length - r.length ≤ g → parseValue g cs = some (v, r))
      ∧ (∀ cs ms r, parseMembers f cs = some (ms, r) →
        r.length < cs.length ∧ ∀ g, cs.length - r.length ≤ g → parseMembers g cs = some (ms, r))
      ∧ (∀ cs vs r, parseElements f cs = some (vs, r) →
        r.length < cs.length
          ∧ ∀ g, cs.length - r.length ≤ g → parseElements g cs = some (vs, r)) := by
  induction f with
  | zero =>
    refine ⟨?_, ?_, ?_⟩ <;> intro cs x r h
    · simp [parseValue] at h
    · simp [parseMembers] at h
    · simp [parseElements] at h
  | succ f ih =>
    obtain ⟨ihV, ihM, ihE⟩ := ih
    refine ⟨?_, ?_, ?_⟩
    · intro cs v r h
      rw [parseValue] at h
      have hsk := skipSpace_length cs
      split at h
      · simp at h
      · rename_i c rest heq
        rw [heq] at hsk
        simp only [List.length_cons] at hsk
        split_ifs at h with h1 h2 h3 h4 h5 h6
        · split at h
          · simp at h
          · rename_i s r1 hps
            simp only [Option.some.injEq, Prod.mk.injEq] at h
            obtain ⟨hv, hr⟩ := h
            subst hv hr
            have hl := parseString_length _ _ _ hps
            refine ⟨by omega, fun g hg => ?_⟩
            obtain ⟨g1, rfl⟩ : ∃ g1, g = g1 + 1 := ⟨g - 1, by omega⟩
            simp only [parseValue, heq, if_pos h1, hps]
        · split at h
          · rename_i r1 hex
            simp only [Option.some.injEq, Prod.mk.injEq] at h
            obtain ⟨hv, hr⟩ := h
            subst hv hr
            have hl := expectText_length _ _ _ hex
            have hs2 := skipSpace_length rest
            refine ⟨by omega, fun g hg => ?_⟩
            obtain ⟨g1, rfl⟩ : ∃ g1, g = g1 + 1 := ⟨g - 1, by omega⟩
            simp only [parseValue, heq, if_neg h1, if_pos h2, hex]
          · rename_i hex
            split at h
            · simp at h
            · rename_i ms r1 hpm
              simp only [Option.some.injEq, Prod.mk.injEq] at h
              obtain ⟨hv, hr⟩ := h
              subst hv hr
              obtain ⟨hlen, hfu⟩ := ihM _ _ _ hpm
              refine ⟨by omega, fun g hg => ?_⟩
              obtain ⟨g1, rfl⟩ : ∃ g1, g = g1 + 1 := ⟨g - 1, by omega⟩
              have hg1 := hfu g1 (by omega)
              simp only [parseValue, heq, if_neg h1, if_pos h2, hex, hg1]
        · split at h
          · rename_i r1 hex
            simp only [Option.some.injEq, Prod.mk.injEq] at h
            obtain ⟨hv, hr⟩ := h
            subst hv hr
            have hl := expectText_length _ _ _ hex
            have hs2 := skipSpace_length rest
            refine ⟨by omega, fun g hg => ?_⟩
            obtain ⟨g1, rfl⟩ : ∃ g1, g = g1 + 1 := ⟨g - 1, by omega⟩
            simp only [parseValue, heq, if_neg h1, if_neg h2, if_pos h3, hex]
          · rename_i hex
            split at h
            · simp at h
            · rename_i vs r1 hpe
              simp only [Option.some.injEq, Prod.mk.injEq] at h
              obtain ⟨hv, hr⟩ := h
              subst hv hr
              obtain ⟨hlen, hfu⟩ := ihE _ _ _ hpe
              refine ⟨by omega, fun g hg => ?_⟩
              obtain ⟨g1, rfl⟩ : ∃ g1, g = g1 + 1 := ⟨g - 1, by omega⟩
              have hg1 := hfu g1 (by omega)
              simp only [parseValue, heq, if_neg h1, if_neg h2, if_pos h3, hex, hg1]
        · split at h
          · simp at h
          · rename_i r1 hex
            simp only [Option.some.injEq, Prod.mk.injEq] at h
            obtain ⟨hv, hr⟩ := h
            subst hv hr
            have hl := expectText_length _ _ _ hex
            refine ⟨by omega, fun g hg => ?_⟩
            obtain ⟨g1, rfl⟩ : ∃ g1, g = g1 + 1 := ⟨g - 1, by omega⟩
            simp only [parseValue, heq, if_neg h1, if_neg h2, if_neg h3, if_pos h4, hex]
        · split at h
          · simp at h
          · rename_i r1 hex
            simp only [Option.some.injEq, Prod.mk.injEq] at h
            obtain ⟨hv, hr⟩ := h
            subst hv hr
            have hl := expectText_length _ _ _ hex
            refine ⟨by omega, fun g hg => ?_⟩
            obtain ⟨g1, rfl⟩ : ∃ g1, g = g1 + 1 := ⟨g - 1, by omega⟩
            simp only [parseValue, heq, if_neg h1, if_neg h2, if_neg h3, if_neg h4, if_pos h5, hex]
        · split at h
          · simp at h
          · rename_i r1 hex
            simp only [Option.some.injEq, Prod.mk.injEq] at h
            obtain ⟨hv, hr⟩ := h
            subst hv hr
            have hl := expectText_length _ _ _ hex
            refine ⟨by omega, fun g hg => ?_⟩
            obtain ⟨g1, rfl⟩ : ∃ g1, g = g1 + 1 := ⟨g - 1, by omega⟩
            simp only [parseValue, heq, if_neg h1, if_neg h2, if_neg h3, if_neg h4, if_neg h5, if_pos h6, hex]
        · split at h
          · simp at h
          · rename_i n r1 hpn
            simp only [Option.some.injEq, Prod.mk.injEq] at h
            obtain ⟨hv, hr⟩ := h
            subst hv hr
            have hl := parseNumber_length _ _ _ hpn
            simp only [List.length_cons] at hl
            refine ⟨by omega, fun g hg => ?_⟩
            obtain ⟨g1, rfl⟩ : ∃ g1, g = g1 + 1 := ⟨g - 1, by omega⟩
            simp only [parseValue, heq, if_neg h1, if_neg h2, if_neg h3, if_neg h4, if_neg h5, if_neg h6, hpn]
    · intro cs ms r h
      rw [parseMembers] at h
      have hsk := skipSpace_length cs
      split at h
      · simp at h
      · rename_i rest hex
        have hl1 := expectText_length_lt _ _ _ _ hex
        split at h
        · simp at h
        · rename_i key r1 hps
          have hl2 := parseString_length _ _ _ hps
          have hs2 := skipSpace_length r1
          split at h
          · simp at h
          · rename_i r2 hex2
            have hl3 := expectText_length _ _ _ hex2
            split at h
            · simp at h
            · rename_i v r3 hpv
              obtain ⟨hlen, hfu⟩ := ihV _ _ _ hpv
              have hs3 := skipSpace_length r3
              split at h
              · simp at h
              · rename_i c r4 heq
                rw [heq] at hs3
                simp only [List.length_cons] at hs3
                split_ifs at h with h1 h2
                · split at h
                  · simp at h
                  · rename_i ms1 r5 hpm
                    simp only [Option.some.injEq, Prod.mk.injEq] at h
                    obtain ⟨hv, hr⟩ := h
                    subst hv hr
                    obtain ⟨hlen2, hfu2⟩ := ihM _ _ _ hpm
                    refine ⟨by omega, fun g hg => ?_⟩
                    obtain ⟨g1, rfl⟩ : ∃ g1, g = g1 + 1 := ⟨g - 1, by omega⟩
                    have hg1 := hfu g1 (by omega)
                    have hg2 := hfu2 g1 (by omega)
                    simp only [parseMembers, hex, hps, hex2, hg1, heq, if_pos h1, hg2]
                · simp only [Option.some.injEq, Prod.mk.injEq] at h
                  obtain ⟨hv, hr⟩ := h
                  subst hv hr
                  refine ⟨by omega, fun g hg => ?_⟩
                  obtain ⟨g1, rfl⟩ : ∃ g1, g = g1 + 1 := ⟨g - 1, by omega⟩
                  have hg1 := hfu g1 (by omega)
                  simp only [parseMembers, hex, hps, hex2, hg1, heq, if_neg h1, if_pos h2]
    · intro cs vs r h
      rw [parseElements] at h
      split at h
      · simp at h
      · rename_i v r1 hpv
        obtain ⟨hlen, hfu⟩ := ihV _ _ _ hpv
        have hs1 := skipSpace_length r1
        split at h
        · simp at h
        · rename_i c r2 heq
          rw [heq] at hs1
          simp only [List.length_cons] at hs1
          split_ifs at h with h1 h2
          · split at h
            · simp at h
            · rename_i vs1 r3 hpe
              simp only [Option.some.injEq, Prod.mk.injEq] at h
              obtain ⟨hv, hr⟩ := h
              subst hv hr
              obtain ⟨hlen2, hfu2⟩ := ihE _ _ _ hpe
              refine ⟨by omega, fun g hg => ?_⟩
              obtain ⟨g1, rfl⟩ : ∃ g1, g = g1 + 1 := ⟨g - 1, by omega⟩
              have hg1 := hfu g1 (by omega)
              have hg2 := hfu2 g1 (by omega)
              simp only [parseElements, hg1, heq, if_pos h1, hg2]
          · simp only [Option.some.injEq, Prod.mk.injEq] at h
            obtain ⟨hv, hr⟩ := h
            subst hv hr
            refine ⟨by omega, fun g hg => ?_⟩
            obtain ⟨g1, rfl⟩ : ∃ g1, g = g1 + 1 := ⟨g - 1, by omega⟩
            have hg1 := hfu g1 (by omega)
            simp only [parseElements, hg1, heq, if_neg h1, if_pos h2]

theorem parseValue_fuel_enough (f : Nat) (cs : List Char) (v : Value) (r : List Char)
    (h : parseValue f cs = some (v, r)) : parseValue (cs.length + 1) cs = some (v, r) :=
  ((parse_fuel_enough f).1 cs v r h).2 (cs.length + 1) (by omega)

theorem parseDocument_isSome_iff (cs : List Char) :
    (parseDocument cs).isSome = true
      ↔ ∃ (f : Nat) (v : Value) (r : List Char),
          parseValue f cs = some (v, r) ∧ skipSpace r = [] := by
  unfold parseDocument
  constructor
  · intro h
    cases hp : parseValue (cs.length + 1) cs with
    | none => simp [hp] at h
    | some p =>
      obtain ⟨v, r⟩ := p
      refine ⟨_, v, r, hp, ?_⟩
      cases hs : skipSpace r with
      | nil => rfl
      | cons c rest => simp [hp, hs] at h
  · rintro ⟨f, v, r, hp, hs⟩
    simp [parseValue_fuel_enough f _ v r hp, hs]

theorem Valid_iff (data : String) :
    Valid data = true
      ↔ ∃ (f : Nat) (v : Value) (r : List Char),
          parseValue f data.data = some (v, r) ∧ skipSpace r = [] :=
  parseDocument_isSome_iff data.data

end json

/-! ### The ledger -/

theorem keyLt_irrefl (a : String) : ¬ keyLt a a :=
  lt_irrefl (α := List Char) a.data

theorem lookupEntry_insertEntry_self (k v : String) (es : List (String × String)) :
    lookupEntry k (insertEntry k v es) = some v := by
  induction es with
  | nil => simp [insertEntry, lookupEntry]
  | cons e rest ih =>
    obtain ⟨k1, v1⟩ := e
    unfold insertEntry
    split_ifs with h1 h2
    · simp [lookupEntry]
    · simp [lookupEntry]
    · have h3 : ¬ k1 = k := fun h => h2 h.symm
      simp [lookupEntry, h3, ih]

theorem lookupEntry_insertEntry_other (k k2 v : String) (es : List (String × String))
    (h : k2 ≠ k) : lookupEntry k2 (insertEntry k v es) = lookupEntry k2 es := by
  induction es with
  | nil => simp [insertEntry, lookupEntry, h.symm]
  | cons e rest ih =>
    obtain ⟨k1, v1⟩ := e
    unfold insertEntry
    split_ifs with h1 h2
    · simp [lookupEntry, h.symm]
    · subst h2
      simp [lookupEntry, h.symm]
    · by_cases h3 : k1 = k2
      · simp [lookupEntry, h3]
      · simp [lookupEntry, h3, ih]

theorem get_put_self (s : WorldState) (k v : String) : (s.put k v).get k = some v :=
  lookupEntry_insertEntry_self k v s.entries

theorem get_put_other (s : WorldState) (k k2 v : String) (h : k2 ≠ k) :
    (s.put k v).get k2 = s.get k2 :=
  lookupEntry_insertEntry_other k k2 v s.entries h

/-! ### Single operations -/

theorem recordHerb_ok (APIstub : ChaincodeStub) (k name location timestamp holder : String)
    (hput : APIstub.putErr k = false) :
    recordHerb APIstub [k, name, location, timestamp, holder]
      = (shim.Success none,
          { APIstub with state := APIstub.state.put k (json.Marshal
              { Name := name, Family := "", Location := location, Production := "",
                Holder := holder, Timestamp := timestamp }) }) := by
  simp [recordHerb, ChaincodeStub.PutState, hput, emptyHerb]

theorem queryHerb_found (APIstub : ChaincodeStub) (k v : String)
    (h : APIstub.state.get k = some v) :
    queryHerb APIstub [k] = (shim.Success (some v), APIstub) := by
  simp [queryHerb, ChaincodeStub.GetState, h]

theorem queryHerb_missing (APIstub : ChaincodeStub) (k : String)
    (h : APIstub.state.get k = none) :
    queryHerb APIstub [k] = (shim.Error "Could not locate herb", APIstub) := by
  simp [queryHerb, ChaincodeStub.GetState, h]

theorem changeHerbHolder_ok (APIstub : ChaincodeStub) (k h2 v : String)
    (hget : APIstub.state.get k = some v) (hput : APIstub.putErr k = false) :
    changeHerbHolder APIstub [k, h2]
      = (shim.Success none,
          { APIstub with state := APIstub.state.put k (json.Marshal
              { (json.Unmarshal v emptyHerb).2 with Holder := h2 }) }) := by
  simp [changeHerbHolder, ChaincodeStub.GetState, ChaincodeStub.PutState, hget, hput]

theorem changeHerbHolder_missing (APIstub : ChaincodeStub) (k h2 : String)
    (hget : APIstub.state.get k = none) :
    changeHerbHolder APIstub [k, h2] = (shim.Error "Could not locate herb", APIstub) := by
  simp [changeHerbHolder, ChaincodeStub.GetState, hget]

/-! ### The result set builder -/

theorem intercalate_go_append (p acc s : String) (rest : List String) :
    String.intercalate.go (p ++ acc) s rest = p ++ String.intercalate.go acc s rest := by
  induction rest generalizing acc with
  | nil => rfl
  | cons a rest ih =>
    simp only [String.intercalate.go]
    rw [String.append_assoc p acc s, String.append_assoc p (acc ++ s) a, ih]

theorem expectedRow_pieces (buffer key value : String) :
    buffer ++ "\x7b\"Key\":" ++ "\"" ++ key ++ "\"" ++ ", \"Record\":" ++ value ++ "\x7d"
      = buffer ++ expectedRow (key, value) := by
  apply String.ext
  simp only [expectedRow, String.data_append, List.append_assoc]
  rfl

theorem queryAllHerbsLoop_written (rows : List (String × String)) (buffer : String) :
    queryAllHerbsLoop (rows.map Except.ok) true buffer
      = Except.ok (String.intercalate.go buffer "," (rows.map expectedRow)) := by
  induction rows generalizing buffer with
  | nil => rfl
  | cons r rest ih =>
    obtain ⟨key, value⟩ := r
    simp only [List.map_cons, queryAllHerbsLoop, if_true]
    rw [expectedRow_pieces, ih]
    rfl

theorem queryAllHerbsLoop_first (rows : List (String × String)) :
    queryAllHerbsLoop (rows.map Except.ok) false "["
      = Except.ok ("[" ++ ",".intercalate (rows.map expectedRow)) := by
  cases rows with
  | nil => rfl
  | cons r rest =>
    obtain ⟨key, value⟩ := r
    simp only [List.map_cons, queryAllHerbsLoop]
    rw [if_neg (by decide), expectedRow_pieces, queryAllHerbsLoop_written,
      intercalate_go_append]
    rfl

theorem queryAllHerbs_of_scan (APIstub : ChaincodeStub) (rows : List (String × String))
    (hscan : APIstub.GetStateByRange "0" "999" = Except.ok (rows.map Except.ok)) :
    queryAllHerbs APIstub = (shim.Success (some (expectedBody rows)), APIstub) := by
  simp only [queryAllHerbs, hscan, queryAllHerbsLoop_first, expectedBody]

theorem GetStateByRange_ok (APIstub : ChaincodeStub) (hscan : APIstub.rangeErr = none) :
    APIstub.GetStateByRange "0" "999" = Except.ok ((scanRows APIstub).map Except.ok) := by
  simp [ChaincodeStub.GetStateByRange, hscan, scanRows]

theorem mem_entries_iff_get (s : WorldState) (k v : String) :
    (k, v) ∈ s.entries ↔ s.get k = some v := by
  obtain ⟨es, hs⟩ := s
  unfold WorldState.get
  simp only
  induction es with
  | nil => simp [lookupEntry]
  | cons e rest ih =>
    obtain ⟨k1, v1⟩ := e
    have hhead := (List.pairwise_cons.1 hs).1
    have htail := (List.pairwise_cons.1 hs).2
    by_cases h : k1 = k
    · subst h
      have hnot : (k1, v) ∉ rest := fun hm => keyLt_irrefl k1 (hhead (k1, v) hm)
      simp only [lookupEntry, if_true, List.mem_cons, Prod.mk.injEq, true_and, Option.some.injEq]
      constructor
      · rintro (h1 | h1)
        · exact h1.symm
        · exact absurd h1 hnot
      · intro h1
        exact Or.inl h1.symm
    · simp only [lookupEntry, if_neg h, List.mem_cons, Prod.mk.injEq]
      rw [← ih htail]
      constructor
      · rintro (h1 | h1)
        · exact absurd h1.1.symm h
        · exact h1
      · intro h1
        exact Or.inr h1

theorem mem_scanRows_iff (APIstub : ChaincodeStub) (k v : String) :
    (k, v) ∈ scanRows APIstub
      ↔ (APIstub.state.get k = some v ∧ ¬ keyLt k "0" ∧ keyLt k "999") := by
  unfold scanRows
  rw [List.mem_filter, mem_entries_iff_get]
  have e : ("999" = "") = False := by decide
  simp [inRange, e]

theorem scanRows_sorted (APIstub : ChaincodeStub) :
    (scanRows APIstub).Pairwise (fun x y => keyLt x.1 y.1) :=
  List.Pairwise.sublist (List.filter_sublist _) APIstub.state.sorted

theorem scanRows_nodup (APIstub : ChaincodeStub) :
    ((scanRows APIstub).map Prod.fst).Nodup := by
  unfold List.Nodup
  rw [List.pairwise_map]
  refine List.Pairwise.imp ?_ (scanRows_sorted APIstub)
  intro a b hab heq
  rw [heq] at hab
  exact keyLt_irrefl _ hab

/-! ### The test data -/

theorem initLedgerLoop_eq (fuel i : Nat) (APIstub : ChaincodeStub)
    (hfuel : i + fuel = herb.length)
    (hput : ∀ j, j < herb.length → APIstub.putErr (strconv.Itoa (j + 1)) = false) :
    initLedgerLoop fuel i APIstub
      = { APIstub with state := (List.range' i fuel).foldl seedWrite APIstub.state } := by
  induction fuel generalizing i APIstub with
  | zero => rfl
  | succ n ih =>
    have hi : i < herb.length := by omega
    rw [initLedgerLoop, if_pos hi]
    simp only [ChaincodeStub.PutState, hput i hi, Bool.false_eq_true, if_false]
    exact ih (i + 1) ⟨seedWrite APIstub.state i, APIstub.putErr, APIstub.rangeErr⟩
      (by omega) hput

theorem initLedger_eq (APIstub : ChaincodeStub)
    (hput : ∀ j, j < 10 → APIstub.putErr (strconv.Itoa (j + 1)) = false) :
    initLedger APIstub = (shim.Success none, { APIstub with state := seeded APIstub.state }) := by
  unfold initLedger seeded
  rw [initLedgerLoop_eq herb.length 0 APIstub (by simp) hput, List.range_eq_range']

theorem scanRows_seeded (APIstub : ChaincodeStub) (hempty : APIstub.state = WorldState.empty)
    (hput : ∀ j, j < 10 → APIstub.putErr (strconv.Itoa (j + 1)) = false) :
    scanRows (initLedger APIstub).2 = scanRows (initLedger emptyStub).2 := by
  rw [initLedger_eq APIstub hput, initLedger_eq emptyStub (fun _ _ => rfl)]
  simp only [scanRows, hempty]
  rfl

set_option maxRecDepth 100000 in
theorem readRows_seeded :
    json.readRows (expectedBody (scanRows (initLedger emptyStub).2)) = some json.seededRows := by
  decide

theorem seededRows_facts :
    json.seededRows.length = 10
      ∧ ∀ i, i < 10 →
          json.seededRows.filter (fun r => decide (r.key = some (strconv.Itoa (i + 1))))
            = [json.seededRow i] := by
  decide

/-! ### A key with a quote -/

theorem parseValue_quoted_key_fails (fuel : Nat) :
    (json.parseValue fuel
      "[\x7b\"Key\":\"1\"x\", \"Record\":\x7b\"name\":\"n\",\"family\":\"\",\"location\":\"l\",\"production\":\"\",\"holder\":\"h\",\"timestamp\":\"t\"\x7d\x7d]".data).isSome
      = false := by
  match fuel with
  | 0 => rfl
  | 1 => decide
  | 2 => decide
  | 3 => decide
  | 4 => decide
  | f + 5 =>
    have h1 : json.parseString "Key\":\"1\"x\", \"Record\":\x7b\"name\":\"n\",\"family\":\"\",\"location\":\"l\",\"production\":\"\",\"holder\":\"h\",\"timestamp\":\"t\"\x7d\x7d]".data
        = some ("Key".data, ":\"1\"x\", \"Record\":\x7b\"name\":\"n\",\"family\":\"\",\"location\":\"l\",\"production\":\"\",\"holder\":\"h\",\"timestamp\":\"t\"\x7d\x7d]".data) := by
      decide
    have h2 : json.parseString "1\"x\", \"Record\":\x7b\"name\":\"n\",\"family\":\"\",\"location\":\"l\",\"production\":\"\",\"holder\":\"h\",\"timestamp\":\"t\"\x7d\x7d]".data
        = some ("1".data, "x\", \"Record\":\x7b\"name\":\"n\",\"family\":\"\",\"location\":\"l\",\"production\":\"\",\"holder\":\"h\",\"timestamp\":\"t\"\x7d\x7d]".data) := by
      decide
    simp only [String.data] at h1 h2 ⊢
    simp [json.parseValue, json.parseElements, json.parseMembers, json.skipSpace,
      json.expectText, h1, h2]

/-! ### Writes on the ledger -/

theorem WorldState_eq_of_entries (s1 s2 : WorldState) (h : s1.entries = s2.entries) :
    s1 = s2 := by
  cases s1
  cases s2
  simp only at h
  subst h
  rfl

theorem insertEntry_insertEntry (k v1 v2 : String) (es : List (String × String)) :
    insertEntry k v2 (insertEntry k v1 es) = insertEntry k v2 es := by
  have hirr : ¬ keyLt k k := keyLt_irrefl k
  induction es with
  | nil => simp [insertEntry, hirr]
  | cons e rest ih =>
    obtain ⟨k1, w⟩ := e
    by_cases h1 : keyLt k k1
    · simp [insertEntry, h1, hirr]
    · by_cases h2 : k = k1
      · subst h2
        simp [insertEntry, hirr]
      · simp [insertEntry, h1, h2, ih]

theorem put_put (s : WorldState) (k v1 v2 : String) : (s.put k v1).put k v2 = s.put k v2 :=
  WorldState_eq_of_entries _ _ (insertEntry_insertEntry k v1 v2 s.entries)

theorem get_put_isSome (s : WorldState) (k v k2 : String) (h : (s.get k2).isSome = true) :
    ((s.put k v).get k2).isSome = true := by
  by_cases hk : k2 = k
  · subst hk
    rw [get_put_self]
    rfl
  · rw [get_put_other s k k2 v hk]
    exact h

theorem WorldState_eq_of_get (s1 s2 : WorldState) (h : ∀ k, s1.get k = s2.get k) :
    s1 = s2 := by
  apply WorldState_eq_of_entries
  have hmem : ∀ e, e ∈ s1.entries ↔ e ∈ s2.entries := by
    rintro ⟨k, v⟩
    rw [mem_entries_iff_get, mem_entries_iff_get, h k]
  have hnd : ∀ s : WorldState, s.entries.Nodup := by
    intro s
    refine List.Pairwise.imp ?_ s.sorted
    intro a b hab heq
    rw [heq] at hab
    exact keyLt_irrefl _ hab
  have hperm : s1.entries.Perm s2.entries :=
    (List.perm_ext_iff_of_nodup (hnd s1) (hnd s2)).2 hmem
  have hanti : IsAntisymm (String × String) (fun x y => keyLt x.1 y.1) :=
    ⟨fun a b hab hba => absurd (lt_trans (α := List Char) hab hba) (lt_irrefl _)⟩
  exact List.eq_of_perm_of_sorted hperm s1.sorted s2.sorted

/-! ### What a call does to the ledger -/

theorem recordHerb_cons (APIstub : ChaincodeStub) (k : String) (rest : List String)
    (hlen : (k :: rest).length = 5) :
    recordHerb APIstub (k :: rest)
      = if APIstub.putErr k = true then
          (shim.Error ("Failed to record herbs plucked: " ++ k), APIstub)
        else
          (shim.Success none,
            { APIstub with state := APIstub.state.put k (json.Marshal
                { emptyHerb with Name := (k :: rest).getD 1 "", Location := (k :: rest).getD 2 "",
                                 Timestamp := (k :: rest).getD 3 "",
                                 Holder := (k :: rest).getD 4 "" }) }) := by
  unfold recordHerb
  rw [if_neg (by simp [hlen])]
  simp only [ChaincodeStub.PutState, List.getD_cons_zero]
  by_cases h : APIstub.putErr k = true
  · simp [h]
  · simp [h]

theorem changeHerbHolder_cons (APIstub : ChaincodeStub) (k : String) (rest : List String)
    (v : String) (hlen : (k :: rest).length = 2) (hget : APIstub.state.get k = some v) :
    changeHerbHolder APIstub (k :: rest)
      = if APIstub.putErr k = true then
          (shim.Error ("Failed to change herb production holder: " ++ k), APIstub)
        else
          (shim.Success none,
            { APIstub with state := APIstub.state.put k (json.Marshal
                { (json.Unmarshal v emptyHerb).2 with Holder := (k :: rest).getD 1 "" }) }) := by
  unfold changeHerbHolder
  rw [if_neg (by simp [hlen])]
  simp only [ChaincodeStub.GetState, ChaincodeStub.PutState, List.getD_cons_zero, hget]
  by_cases h : APIstub.putErr k = true
  · simp [h]
  · simp [h]

theorem changeHerbHolder_cons_missing (APIstub : ChaincodeStub) (k : String)
    (rest : List String) (hget : APIstub.state.get k = none) :
    (changeHerbHolder APIstub (k :: rest)).2 = APIstub := by
  unfold changeHerbHolder
  split_ifs
  · rfl
  · simp only [ChaincodeStub.GetState, List.getD_cons_zero, hget]

theorem recordHerb_state (APIstub : ChaincodeStub) (args : List String) :
    (recordHerb APIstub args).2 = APIstub
      ∨ ∃ k v : String, args.head? = some k
          ∧ (recordHerb APIstub args).2 = { APIstub with state := APIstub.state.put k v } := by
  by_cases h1 : args.length = 5
  · cases args with
    | nil => simp at h1
    | cons k rest =>
      rw [recordHerb_cons APIstub k rest h1]
      split_ifs
      · exact Or.inl rfl
      · exact Or.inr ⟨k, _, rfl, rfl⟩
  · left
    simp [recordHerb, h1]

theorem changeHerbHolder_state (APIstub : ChaincodeStub) (args : List String) :
    (changeHerbHolder APIstub args).2 = APIstub
      ∨ ∃ k v : String, args.head? = some k
          ∧ (changeHerbHolder APIstub args).2
              = { APIstub with state := APIstub.state.put k v } := by
  by_cases h1 : args.length = 2
  · cases args with
    | nil => simp at h1
    | cons k rest =>
      cases hget : APIstub.state.get k with
      | none => exact Or.inl (changeHerbHolder_cons_missing APIstub k rest hget)
      | some v =>
        rw [changeHerbHolder_cons APIstub k rest v h1 hget]
        split_ifs
        · exact Or.inl rfl
        · exact Or.inr ⟨k, _, rfl, rfl⟩
  · left
    simp [changeHerbHolder, h1]

theorem initLedgerLoop_fold (fuel i : Nat) (APIstub : ChaincodeStub)
    (hfuel : i + fuel = herb.length) :
    initLedgerLoop fuel i APIstub
      = { APIstub with
          state := (List.range' i fuel).foldl (seedRound APIstub.putErr) APIstub.state } := by
  induction fuel generalizing i APIstub with
  | zero => rfl
  | succ n ih =>
    have hi : i < herb.length := by omega
    rw [initLedgerLoop, if_pos hi]
    have hstep : (APIstub.PutState (strconv.Itoa (i + 1))
        (json.Marshal (herb.getD i emptyHerb))).2
          = ⟨seedRound APIstub.putErr APIstub.state i, APIstub.putErr, APIstub.rangeErr⟩ := by
      simp only [ChaincodeStub.PutState, seedRound, seedWrite]
      split_ifs <;> rfl
    simp only [hstep]
    exact ih (i + 1) ⟨seedRound APIstub.putErr APIstub.state i, APIstub.putErr,
      APIstub.rangeErr⟩ (by omega)

theorem initLedger_fold (APIstub : ChaincodeStub) :
    initLedger APIstub
      = (shim.Success none,
          { APIstub with
            state := (List.range 10).foldl (seedRound APIstub.putErr) APIstub.state }) := by
  unfold initLedger
  rw [initLedgerLoop_fold herb.length 0 APIstub (by simp), List.range_eq_range']
  rfl

theorem queryHerb_stub (APIstub : ChaincodeStub) (args : List String) :
    (queryHerb APIstub args).2 = APIstub := by
  unfold queryHerb
  split_ifs
  · rfl
  · split <;> rfl

theorem queryAllHerbs_stub (APIstub : ChaincodeStub) : (queryAllHerbs APIstub).2 = APIstub := by
  unfold queryAllHerbs
  simp only
  split
  · rfl
  · split <;> rfl

theorem seedRound_cases (putErr : String → Bool) (s : WorldState) (i : Nat) :
    seedRound putErr s i = s
      ∨ seedRound putErr s i
          = s.put (strconv.Itoa (i + 1)) (json.Marshal (herb.getD i emptyHerb)) := by
  unfold seedRound seedWrite
  split_ifs
  · exact Or.inl rfl
  · exact Or.inr rfl

theorem foldl_seedRound_isSome (putErr : String → Bool) (l : List Nat) (s : WorldState)
    (k : String) (h : (s.get k).isSome = true) :
    (((l.foldl (seedRound putErr) s)).get k).isSome = true := by
  induction l generalizing s with
  | nil => exact h
  | cons i rest ih =>
    rw [List.foldl_cons]
    apply ih
    rcases seedRound_cases putErr s i with h1 | h1
    · rw [h1]; exact h
    · rw [h1]; exact get_put_isSome s _ _ k h

theorem foldl_seedRound_other (putErr : String → Bool) (l : List Nat) (s : WorldState)
    (k : String) (h : ∀ i, i ∈ l → k ≠ strconv.Itoa (i + 1)) :
    ((l.foldl (seedRound putErr) s)).get k = s.get k := by
  induction l generalizing s with
  | nil => rfl
  | cons i rest ih =>
    rw [List.foldl_cons, ih _ (fun j hj => h j (List.mem_cons_of_mem _ hj))]
    rcases seedRound_cases putErr s i with h1 | h1
    · rw [h1]
    · rw [h1, get_put_other s _ k _ (h i (List.mem_cons_self _ _))]

theorem Itoa_succ_injective :
    ∀ i, i < 10 → ∀ j, j < 10 → strconv.Itoa (i + 1) = strconv.Itoa (j + 1) → i = j := by
  decide

theorem foldl_seedRound_self (putErr : String → Bool) (l : List Nat) (s : WorldState)
    (i : Nat) (hi : i ∈ l) (hl : ∀ j, j ∈ l → j < 10) (hnd : l.Nodup) :
    ((l.foldl (seedRound putErr) s)).get (strconv.Itoa (i + 1))
      = if putErr (strconv.Itoa (i + 1)) = true then s.get (strconv.Itoa (i + 1))
        else some (json.Marshal (herb.getD i emptyHerb)) := by
  induction l generalizing s with
  | nil => simp at hi
  | cons a rest ih =>
    rw [List.foldl_cons]
    have hnd2 := List.nodup_cons.1 hnd
    have hl2 : ∀ j, j ∈ rest → j < 10 := fun j hj => hl j (List.mem_cons_of_mem _ hj)
    have ha : a < 10 := hl a (List.mem_cons_self _ _)
    rcases List.mem_cons.1 hi with h1 | h1
    · subst h1
      rw [foldl_seedRound_other putErr rest _ _ (fun j hj heq =>
        hnd2.1 (by rw [Itoa_succ_injective i ha j (hl2 j hj) heq]; exact hj))]
      unfold seedRound seedWrite
      split_ifs
      · rfl
      · exact get_put_self _ _ _
    · rw [ih _ h1 hl2 hnd2.2]
      have hne : strconv.Itoa (i + 1) ≠ strconv.Itoa (a + 1) := by
        intro heq
        have := Itoa_succ_injective i (hl2 i h1) a ha heq
        rw [this] at h1
        exact hnd2.1 h1
      rcases seedRound_cases putErr s a with h2 | h2
      · rw [h2]
      · rw [h2, get_put_other s _ _ _ hne]

theorem initLedger_get_seed (APIstub : ChaincodeStub) (i : Nat) (hi : i < 10) :
    (initLedger APIstub).2.state.get (strconv.Itoa (i + 1))
      = if APIstub.putErr (strconv.Itoa (i + 1)) = true then
          APIstub.state.get (strconv.Itoa (i + 1))
        else some (json.Marshal (herb.getD i emptyHerb)) := by
  rw [initLedger_fold]
  exact foldl_seedRound_self APIstub.putErr (List.range 10) APIstub.state i
    (List.mem_range.2 hi) (fun j hj => List.mem_range.1 hj) (List.nodup_range 10)

theorem initLedger_get_other (APIstub : ChaincodeStub) (k : String)
    (h : ∀ i, i < 10 → k ≠ strconv.Itoa (i + 1)) :
    (initLedger APIstub).2.state.get k = APIstub.state.get k := by
  rw [initLedger_fold]
  exact foldl_seedRound_other APIstub.putErr (List.range 10) APIstub.state k
    (fun i hi => h i (List.mem_range.1 hi))

theorem initLedger_isSome (APIstub : ChaincodeStub) (k : String)
    (h : (APIstub.state.get k).isSome = true) :
    ((initLedger APIstub).2.state.get k).isSome = true := by
  rw [initLedger_fold]
  exact foldl_seedRound_isSome APIstub.putErr (List.range 10) APIstub.state k h

theorem initLedger_oracles (APIstub : ChaincodeStub) :
    (initLedger APIstub).2.putErr = APIstub.putErr
      ∧ (initLedger APIstub).2.rangeErr = APIstub.rangeErr := by
  rw [initLedger_fold]
  exact ⟨rfl, rfl⟩

theorem ChaincodeStub_eq (s1 s2 : ChaincodeStub) (h1 : s1.state = s2.state)
    (h2 : s1.putErr = s2.putErr) (h3 : s1.rangeErr = s2.rangeErr) : s1 = s2 := by
  cases s1
  cases s2
  simp only at h1 h2 h3
  subst h1 h2 h3
  rfl

theorem initLedger_twice (APIstub : ChaincodeStub) :
    (initLedger (initLedger APIstub).2).2 = (initLedger APIstub).2 := by
  have ho := initLedger_oracles APIstub
  have ho2 := initLedger_oracles (initLedger APIstub).2
  refine ChaincodeStub_eq _ _ (WorldState_eq_of_get _ _ fun k => ?_) ho2.1 ho2.2
  by_cases hk : ∃ i, i < 10 ∧ k = strconv.Itoa (i + 1)
  · obtain ⟨i, hi, rfl⟩ := hk
    rw [initLedger_get_seed _ i hi, ho.1]
    split_ifs with hp
    · rfl
    · rw [initLedger_get_seed _ i hi, if_neg hp]
  · exact initLedger_get_other _ k (fun i hi heq => hk ⟨i, hi, heq⟩)

theorem Invoke_isSome (APIstub : ChaincodeStub) (function : String) (args : List String)
    (k : String) (h : (APIstub.state.get k).isSome = true) :
    ((Invoke APIstub function args).2.state.get k).isSome = true := by
  unfold Invoke
  split_ifs
  · rw [queryHerb_stub]; exact h
  · exact initLedger_isSome APIstub k h
  · rcases recordHerb_state APIstub args with h1 | ⟨k1, v, _, h1⟩
    · rw [h1]; exact h
    · rw [h1]; exact get_put_isSome _ _ _ _ h
  · rw [queryAllHerbs_stub]; exact h
  · rcases changeHerbHolder_state APIstub args with h1 | ⟨k1, v, _, h1⟩
    · rw [h1]; exact h
    · rw [h1]; exact get_put_isSome _ _ _ _ h
  · exact h

theorem invokeAll_isSome (calls : List (String × List String)) (APIstub : ChaincodeStub)
    (k : String) (h : (APIstub.state.get k).isSome = true) :
    ((invokeAll APIstub calls).state.get k).isSome = true := by
  induction calls generalizing APIstub with
  | nil => exact h
  | cons call rest ih =>
    rw [invokeAll]
    exact ih _ (Invoke_isSome APIstub call.1 call.2 k h)

theorem recordHerb_other (APIstub : ChaincodeStub) (args : List String) (k2 : String)
    (h : args.head? ≠ some k2) :
    (recordHerb APIstub args).2.state.get k2 = APIstub.state.get k2 := by
  rcases recordHerb_state APIstub args with h1 | ⟨k1, v, hk, h1⟩
  · rw [h1]
  · rw [h1]
    exact get_put_other _ _ _ _ (fun heq => h (by rw [hk, heq]))

theorem changeHerbHolder_other (APIstub : ChaincodeStub) (args : List String) (k2 : String)
    (h : args.head? ≠ some k2) :
    (changeHerbHolder APIstub args).2.state.get k2 = APIstub.state.get k2 := by
  rcases changeHerbHolder_state APIstub args with h1 | ⟨k1, v, hk, h1⟩
  · rw [h1]
  · rw [h1]
    exact get_put_other _ _ _ _ (fun heq => h (by rw [hk, heq]))

theorem changeHerbHolder_pair (APIstub : ChaincodeStub) (k h v : String)
    (hget : APIstub.state.get k = some v) (hp : ¬ APIstub.putErr k = true) :
    (changeHerbHolder APIstub [k, h]).2
      = ⟨APIstub.state.put k (json.Marshal { (json.Unmarshal v emptyHerb).2 with Holder := h }),
          APIstub.putErr, APIstub.rangeErr⟩ := by
  rw [changeHerbHolder_cons APIstub k [h] v rfl hget, if_neg hp]
  rfl

theorem changeHerbHolder_twice (APIstub : ChaincodeStub) (k h1 h2 : String) :
    (changeHerbHolder (changeHerbHolder APIstub [k, h1]).2 [k, h2]).2
      = (changeHerbHolder APIstub [k, h2]).2 := by
  cases hget : APIstub.state.get k with
  | none =>
    rw [changeHerbHolder_cons_missing APIstub k [h1] hget,
      changeHerbHolder_cons_missing APIstub k [h2] hget]
  | some v =>
    by_cases hp : APIstub.putErr k = true
    · have e1 : (changeHerbHolder APIstub [k, h1]).2 = APIstub := by
        rw [changeHerbHolder_cons APIstub k [h1] v rfl hget, if_pos hp]
      rw [e1]
    · rw [changeHerbHolder_pair APIstub k h1 v hget hp,
        changeHerbHolder_pair APIstub k h2 v hget hp,
        changeHerbHolder_pair
          ⟨APIstub.state.put k
            (json.Marshal { (json.Unmarshal v emptyHerb).2 with Holder := h1 }),
            APIstub.putErr, APIstub.rangeErr⟩ k h2 _ (get_put_self _ _ _) hp]
      simp only [json.Unmarshal_Marshal, put_put]

/-! ### A write followed by a query, on text -/

/-- After `recordHerb [k, name, location, timestamp, holder]` on text whose write the
store accepts, `queryHerb [k]` succeeds with bytes that decode, without error and into
any record, to the record with the four supplied texts and with `Family` and `Production`
empty. -/
theorem queryHerb_recordHerb (APIstub : ChaincodeStub)
    (k name location timestamp holder : String) (hput : APIstub.putErr k = false) :
    ∃ bytes : String,
      (queryHerb (recordHerb APIstub [k, name, location, timestamp, holder]).2 [k]).1
          = shim.Success (some bytes)
        ∧ ∀ h0 : HerbCrops, json.Unmarshal bytes h0
            = (false, { Name := name, Family := "", Location := location, Production := "",
                        Holder := holder, Timestamp := timestamp }) := by
  refine ⟨json.Marshal
    { Name := name, Family := "", Location := location, Production := "",
      Holder := holder, Timestamp := timestamp }, ?_, fun h0 => json.Unmarshal_Marshal _ h0⟩
  rw [recordHerb_ok APIstub k name location timestamp holder hput]
  rw [queryHerb_found _ k _ (get_put_self _ _ _)]

/-- After `recordHerb [k, name, location, timestamp, h1]` and then
`changeHerbHolder [k, h2]` on text, both writes accepted by the store, `queryHerb [k]`
succeeds with bytes that decode to the record with holder `h2`, the name, location and
timestamp of the original write, and `Family` and `Production` empty. -/
theorem queryHerb_changeHerbHolder (APIstub : ChaincodeStub)
    (k name location timestamp h1 h2 : String) (hput : APIstub.putErr k = false) :
    ∃ bytes : String,
      (queryHerb (changeHerbHolder
          (recordHerb APIstub [k, name, location, timestamp, h1]).2 [k, h2]).2 [k]).1
          = shim.Success (some bytes)
        ∧ ∀ h0 : HerbCrops, json.Unmarshal bytes h0
            = (false, { Name := name, Family := "", Location := location, Production := "",
                        Holder := h2, Timestamp := timestamp }) := by
  refine ⟨json.Marshal
    { Name := name, Family := "", Location := location, Production := "",
      Holder := h2, Timestamp := timestamp }, ?_, fun h0 => json.Unmarshal_Marshal _ h0⟩
  rw [recordHerb_ok APIstub k name location timestamp h1 hput]
  have e2 := changeHerbHolder_ok
    { APIstub with state := APIstub.state.put k (json.Marshal
        { Name := name, Family := "", Location := location, Production := "",
          Holder := h1, Timestamp := timestamp }) }
    k h2 _ (get_put_self _ _ _) hput
  dsimp only at e2 ⊢
  rw [e2, queryHerb_found _ k _ (get_put_self _ _ _), json.Unmarshal_Marshal]

/-! ### Byte strings that are valid UTF-8 -/

namespace utf8

theorem toNat_valid (c : Char) : c.toNat < 55296 ∨ (57343 < c.toNat ∧ c.toNat < 1114112) :=
  c.valid

theorem DecodeRune_one (b0 : Nat) (rest : Bytes) (h0 : b0 < 128) :
    DecodeRune (b0 :: rest) = (some (Char.ofNat b0), 1) := by
  simp only [DecodeRune, if_pos h0]

theorem DecodeRune_two (b0 b1 : Nat) (rest : Bytes) (h0 : 194 ≤ b0 ∧ b0 < 224)
    (h1 : ¬ (b1 < (acceptRange b0).1 ∨ (acceptRange b0).2 < b1)) :
    DecodeRune (b0 :: b1 :: rest) = (some (Char.ofNat ((b0 - 192) * 64 + (b1 - 128))), 2) := by
  have hs : sequenceSize b0 = 2 := by
    unfold sequenceSize
    rw [if_neg (by omega), if_neg (by omega), if_pos (by omega)]
  simp only [DecodeRune, hs]
  rw [if_neg (by omega), if_neg (by decide), if_neg h1, if_pos trivial]

theorem DecodeRune_three (b0 b1 b2 : Nat) (rest : Bytes) (h0 : 224 ≤ b0 ∧ b0 < 240)
    (h1 : ¬ (b1 < (acceptRange b0).1 ∨ (acceptRange b0).2 < b1))
    (h2 : isContinuation b2 = true) :
    DecodeRune (b0 :: b1 :: b2 :: rest)
      = (some (Char.ofNat ((b0 - 224) * 4096 + (b1 - 128) * 64 + (b2 - 128))), 3) := by
  have hs : sequenceSize b0 = 3 := by
    unfold sequenceSize
    rw [if_neg (by omega), if_neg (by omega), if_neg (by omega), if_pos (by omega)]
  simp only [DecodeRune, hs, h2]
  rw [if_neg (by omega), if_neg (by decide), if_neg h1, if_neg (by decide),
    if_neg (by decide), if_pos trivial]

theorem DecodeRune_four (b0 b1 b2 b3 : Nat) (rest : Bytes) (h0 : 240 ≤ b0 ∧ b0 < 245)
    (h1 : ¬ (b1 < (acceptRange b0).1 ∨ (acceptRange b0).2 < b1))
    (h2 : isContinuation b2 = true) (h3 : isContinuation b3 = true) :
    DecodeRune (b0 :: b1 :: b2 :: b3 :: rest)
      = (some (Char.ofNat ((b0 - 240) * 262144 + (b1 - 128) * 4096 + (b2 - 128) * 64
          + (b3 - 128))), 4) := by
  have hs : sequenceSize b0 = 4 := by
    unfold sequenceSize
    rw [if_neg (by omega), if_neg (by omega), if_neg (by omega), if_neg (by omega),
      if_pos (by omega)]
  simp only [DecodeRune, hs, h2, h3]
  rw [if_neg (by omega), if_neg (by decide), if_neg h1, if_neg (by decide),
    if_neg (by decide), if_neg (by decide), if_neg (by decide)]

theorem isContinuation_low (n : Nat) : isContinuation (128 + n % 64) = true := by
  simp only [isContinuation, decide_eq_true_eq]
  omega

theorem DecodeRune_EncodeRune (c : Char) (rest : Bytes) :
    DecodeRune (EncodeRune c ++ rest) = (some c, (EncodeRune c).length) := by
  have hv := toNat_valid c
  have hc : Char.ofNat c.toNat = c := Char.ofNat_toNat c
  unfold EncodeRune
  split_ifs with h1 h2 h3
  · rw [List.singleton_append, DecodeRune_one _ _ h1, hc]
    rfl
  · have e : (192 + c.toNat / 64 - 192) * 64 + (128 + c.toNat % 64 - 128) = c.toNat := by
      omega
    have ha : ¬ (128 + c.toNat % 64 < (acceptRange (192 + c.toNat / 64)).1
        ∨ (acceptRange (192 + c.toNat / 64)).2 < 128 + c.toNat % 64) := by
      unfold acceptRange
      rw [if_neg (by omega), if_neg (by omega), if_neg (by omega), if_neg (by omega)]
      simp only
      omega
    rw [List.cons_append, List.cons_append, List.nil_append,
      DecodeRune_two _ _ _ (by omega) ha, e, hc]
    rfl
  · have e : (224 + c.toNat / 4096 - 224) * 4096 + (128 + c.toNat / 64 % 64 - 128) * 64
        + (128 + c.toNat % 64 - 128) = c.toNat := by
      omega
    have ha : ¬ (128 + c.toNat / 64 % 64 < (acceptRange (224 + c.toNat / 4096)).1
        ∨ (acceptRange (224 + c.toNat / 4096)).2 < 128 + c.toNat / 64 % 64) := by
      unfold acceptRange
      split_ifs <;> simp only <;> omega
    rw [List.cons_append, List.cons_append, List.cons_append, List.nil_append,
      DecodeRune_three _ _ _ _ (by omega) ha (isContinuation_low _), e, hc]
    rfl
  · have e : (240 + c.toNat / 262144 - 240) * 262144 + (128 + c.toNat / 4096 % 64 - 128) * 4096
        + (128 + c.toNat / 64 % 64 - 128) * 64 + (128 + c.toNat % 64 - 128) = c.toNat := by
      omega
    have ha : ¬ (128 + c.toNat / 4096 % 64 < (acceptRange (240 + c.toNat / 262144)).1
        ∨ (acceptRange (240 + c.toNat / 262144)).2 < 128 + c.toNat / 4096 % 64) := by
      unfold acceptRange
      split_ifs <;> simp only <;> omega
    rw [List.cons_append, List.cons_append, List.cons_append, List.cons_append,
      List.nil_append,
      DecodeRune_four _ _ _ _ _ (by omega) ha (isContinuation_low _) (isContinuation_low _),
      e, hc]
    rfl

theorem EncodeRune_length_pos (c : Char) : 0 < (EncodeRune c).length := by
  unfold EncodeRune
  split_ifs <;> simp

theorem encodeChars_length (cs : List Char) : cs.length ≤ (encodeChars cs).length := by
  induction cs with
  | nil => exact Nat.le_refl _
  | cons c cs ih =>
    have := EncodeRune_length_pos c
    simp only [encodeChars, List.length_append, List.length_cons]
    omega

theorem decodeAll_encodeChars (cs : List Char) (fuel : Nat) (h : cs.length ≤ fuel) :
    decodeAll fuel (encodeChars cs) = cs.map some := by
  induction cs generalizing fuel with
  | nil => cases fuel <;> simp [decodeAll, encodeChars]
  | cons c cs ih =>
    cases fuel with
    | zero => simp at h
    | succ f =>
      have hne : EncodeRune c ++ encodeChars cs ≠ [] := by
        intro h0
        have := EncodeRune_length_pos c
        rw [List.append_eq_nil] at h0
        rw [h0.1] at this
        exact Nat.lt_irrefl 0 this
      simp only [encodeChars, decodeAll, if_neg hne, DecodeRune_EncodeRune, List.drop_left,
        List.map_cons]
      rw [ih f (by simpa using h)]

theorem runes_bytes (s : String) : runes (bytes s) = s.data.map some :=
  decodeAll_encodeChars s.data _ (encodeChars_length s.data)

theorem allValid_map_some (cs : List Char) : allValid (cs.map some) = some cs := by
  induction cs with
  | nil => rfl
  | cons c cs ih => simp only [List.map_cons, allValid, ih]

theorem text_bytes (s : String) : text? (bytes s) = some s := by
  unfold text?
  rw [runes_bytes, allValid_map_some]

end utf8

/-! ### The codec on byte strings -/

namespace json

theorem parseString_escapeRunes (items : List (Option Char)) (tail : List Char) :
    parseString (escapeRunes items ++ '\"' :: tail)
      = some (items.map (fun r => r.getD replacementChar), tail) := by
  unfold parseString
  induction items with
  | nil => exact parseStringFrom_quote tail
  | cons r rs ih =>
    cases r with
    | none =>
      have key := parseStringFrom_u4 'f' 'f' 'f' 'd' 15 15 15 13
        (escapeRunes rs ++ '\"' :: tail) (by decide) (by decide) (by decide) (by decide)
        (by decide)
      simp only [escapeRunes, escapeRune, List.cons_append, List.nil_append, List.map_cons,
        Option.getD_none]
      rw [key, ih]
      rfl
    | some c =>
      simp only [escapeRunes, escapeRune, List.append_assoc, List.map_cons, Option.getD_some]
      rw [parseStringFrom_escapeChar, ih]
      rfl

theorem parseValue_stringRaw (f : Nat) (p : Bytes) (tail : List Char) :
    parseValue (f + 1) (encodeStringRaw p ++ tail)
      = some (Value.string (utf8.coerced p), tail) := by
  have h := parseString_escapeRunes (utf8.runes p) tail
  simp [parseValue, encodeStringRaw, skipSpace, h, utf8.coerced]

theorem parseMembers_more_raw (f : Nat) (key : List Char) (p : Bytes) (tail : List Char)
    (hk : escapeChars key = key) :
    parseMembers (f + 2) ('\"' :: (key ++ '\"' :: ':' :: (encodeStringRaw p ++ ',' :: tail)))
      = (parseMembers (f + 1) tail).map
          (fun q => ((key, Value.string (utf8.coerced p)) :: q.1, q.2)) := by
  have h := parseString_escapeChars key (':' :: (encodeStringRaw p ++ ',' :: tail))
  rw [hk] at h
  have hv := parseValue_stringRaw f p (',' :: tail)
  rw [parseMembers]
  simp only [skipSpace, expectText, h, hv, if_true, if_false]
  simp
  cases parseMembers (f + 1) tail <;> rfl

theorem parseMembers_last_raw (f : Nat) (key : List Char) (p : Bytes) (tail : List Char)
    (hk : escapeChars key = key) :
    parseMembers (f + 2) ('\"' :: (key ++ '\"' :: ':' :: (encodeStringRaw p ++ '\x7d' :: tail)))
      = some ([(key, Value.string (utf8.coerced p))], tail) := by
  have h := parseString_escapeChars key (':' :: (encodeStringRaw p ++ '\x7d' :: tail))
  rw [hk] at h
  have hv := parseValue_stringRaw f p ('\x7d' :: tail)
  simp [parseMembers, expectText, h, skipSpace, hv]

theorem MarshalRaw_data (r : RawHerbCrops) :
    (MarshalRaw r).data = '\x7b' :: '\"' :: ("name".data ++ '\"' :: ':' :: (encodeStringRaw r.Name
      ++ ',' :: '\"' :: ("family".data ++ '\"' :: ':' :: (encodeStringRaw r.Family
      ++ ',' :: '\"' :: ("location".data ++ '\"' :: ':' :: (encodeStringRaw r.Location
      ++ ',' :: '\"' :: ("production".data ++ '\"' :: ':' :: (encodeStringRaw r.Production
      ++ ',' :: '\"' :: ("holder".data ++ '\"' :: ':' :: (encodeStringRaw r.Holder
      ++ ',' :: '\"' :: ("timestamp".data ++ '\"' :: ':' :: (encodeStringRaw r.Timestamp
      ++ '\x7d' :: [])))))))))))) := by
  simp [MarshalRaw]

theorem parseValue_MarshalRaw (r : RawHerbCrops) (f : Nat) :
    parseValue (f + 8) (MarshalRaw r).data
      = some (Value.object
          [ ("name".data, Value.string (utf8.coerced r.Name)),
            ("family".data, Value.string (utf8.coerced r.Family)),
            ("location".data, Value.string (utf8.coerced r.Location)),
            ("production".data, Value.string (utf8.coerced r.Production)),
            ("holder".data, Value.string (utf8.coerced r.Holder)),
            ("timestamp".data, Value.string (utf8.coerced r.Timestamp)) ], []) := by
  rw [MarshalRaw_data, parseValue]
  simp only [skipSpace]
  simp only [show ('\x7b' = ' ' ∨ '\x7b' = '\t' ∨ '\x7b' = '\r' ∨ '\x7b' = '\n') = False by decide,
    if_false]
  rw [show f + 7 = (f + 5) + 2 by rfl, parseMembers_more_raw _ _ _ _ (by decide)]
  rw [show f + 5 + 1 = (f + 4) + 2 by rfl, parseMembers_more_raw _ _ _ _ (by decide)]
  rw [show f + 4 + 1 = (f + 3) + 2 by rfl, parseMembers_more_raw _ _ _ _ (by decide)]
  rw [show f + 3 + 1 = (f + 2) + 2 by rfl, parseMembers_more_raw _ _ _ _ (by decide)]
  rw [show f + 2 + 1 = (f + 1) + 2 by rfl, parseMembers_more_raw _ _ _ _ (by decide)]
  rw [show f + 1 + 1 = f + 2 by rfl, parseMembers_last_raw _ _ _ _ (by decide)]
  simp [expectText, skipSpace]

theorem MarshalRaw_length (r : RawHerbCrops) :
    ∃ f, (MarshalRaw r).data.length + 1 = f + 8 := by
  refine ⟨(MarshalRaw r).data.length - 7, ?_⟩
  have h : 7 ≤ (MarshalRaw r).data.length := by
    rw [MarshalRaw_data]
    simp only [List.length_cons, List.length_append]
    omega
  omega

theorem UnmarshalRaw_MarshalRaw (r h0 : RawHerbCrops) :
    UnmarshalRaw (MarshalRaw r) h0
      = (false,
          { Name := utf8.encodeChars (utf8.coerced r.Name),
            Family := utf8.encodeChars (utf8.coerced r.Family),
            Location := utf8.encodeChars (utf8.coerced r.Location),
            Production := utf8.encodeChars (utf8.coerced r.Production),
            Holder := utf8.encodeChars (utf8.coerced r.Holder),
            Timestamp := utf8.encodeChars (utf8.coerced r.Timestamp) }) := by
  obtain ⟨f, hf⟩ := MarshalRaw_length r
  have e1 : findField "name".data = some 0 := by decide
  have e2 : findField "family".data = some 1 := by decide
  have e3 : findField "location".data = some 2 := by decide
  have e4 : findField "production".data = some 3 := by decide
  have e5 : findField "holder".data = some 4 := by decide
  have e6 : findField "timestamp".data = some 5 := by decide
  unfold UnmarshalRaw parseDocument
  rw [hf, parseValue_MarshalRaw]
  simp [skipSpace, storeValueRaw, storeMemberRaw, e1, e2, e3, e4, e5, e6, setFieldRaw]

end json

namespace utf8

theorem coerced_bytes (s : String) : coerced (bytes s) = s.data := by
  unfold coerced
  rw [runes_bytes, List.map_map]
  exact (List.map_congr_left (fun _ _ => rfl)).trans (List.map_id _)

theorem encodeChars_coerced_bytes (s : String) : encodeChars (coerced (bytes s)) = bytes s := by
  rw [coerced_bytes]
  rfl

/-- A byte string is read back as it was written exactly when it is the encoding of a
text. -/
theorem encodeChars_coerced_eq_iff (p : Bytes) :
    encodeChars (coerced p) = p ↔ ∃ s : String, p = bytes s := by
  constructor
  · intro h
    exact ⟨⟨coerced p⟩, h.symm⟩
  · rintro ⟨s, rfl⟩
    exact encodeChars_coerced_bytes s

end utf8

/-! ### The handlers on byte strings -/

namespace json

theorem escapeRunes_map_some (cs : List Char) : escapeRunes (cs.map some) = escapeChars cs := by
  induction cs with
  | nil => rfl
  | cons c cs ih => simp [escapeRunes, escapeRune, escapeChars, ih]

theorem encodeStringRaw_bytes (s : String) : encodeStringRaw (utf8.bytes s) = encodeString s := by
  unfold encodeStringRaw encodeString
  rw [utf8.runes_bytes, escapeRunes_map_some]

theorem MarshalRaw_bytes (herb : HerbCrops) : MarshalRaw herb.bytes = Marshal herb := by
  simp only [MarshalRaw, Marshal, HerbCrops.bytes, encodeStringRaw_bytes]

theorem UnmarshalRaw_Marshal (herb : HerbCrops) (h0 : RawHerbCrops) :
    UnmarshalRaw (Marshal herb) h0 = (false, herb.bytes) := by
  rw [← MarshalRaw_bytes, UnmarshalRaw_MarshalRaw]
  simp only [HerbCrops.bytes, utf8.encodeChars_coerced_bytes]

end json

theorem recordHerbRaw_ok (APIstub : ChaincodeStub) (k : String)
    (name location timestamp holder : Bytes) (hput : APIstub.putErr k = false) :
    recordHerbRaw APIstub [utf8.bytes k, name, location, timestamp, holder]
      = some (shim.Success none,
          { APIstub with state := APIstub.state.put k (json.MarshalRaw
              { Name := name, Family := [], Location := location, Production := [],
                Holder := holder, Timestamp := timestamp }) }) := by
  simp [recordHerbRaw, utf8.text_bytes, ChaincodeStub.PutState, hput, emptyRawHerb]

theorem changeHerbHolderRaw_ok (APIstub : ChaincodeStub) (k v : String) (h2 : Bytes)
    (hget : APIstub.state.get k = some v) (hput : APIstub.putErr k = false) :
    changeHerbHolderRaw APIstub [utf8.bytes k, h2]
      = some (shim.Success none,
          { APIstub with state := APIstub.state.put k (json.MarshalRaw
              { (json.UnmarshalRaw v emptyRawHerb).2 with Holder := h2 }) }) := by
  simp [changeHerbHolderRaw, utf8.text_bytes, ChaincodeStub.GetState, ChaincodeStub.PutState,
    hget, hput]

/-- On arguments that are text, the handler on byte strings is the handler on text. -/
theorem recordHerbRaw_text (APIstub : ChaincodeStub) (args : List String) :
    recordHerbRaw APIstub (args.map utf8.bytes) = some (recordHerb APIstub args) := by
  by_cases hlen : args.length = 5
  · match args, hlen with
    | [k, name, location, timestamp, holder], _ =>
      have hm := json.MarshalRaw_bytes
        { Name := name, Family := "", Location := location, Production := "",
          Holder := holder, Timestamp := timestamp }
      simp only [HerbCrops.bytes] at hm
      have he : utf8.bytes "" = [] := rfl
      simp only [he] at hm
      simp only [recordHerbRaw, recordHerb, List.map_cons, List.map_nil, List.length_cons,
        List.length_nil, utf8.text_bytes, emptyRawHerb, emptyHerb, List.getD_cons_zero,
        List.getD_cons_succ, hm]
      simp only [ne_eq, not_true_eq_false, if_false]
      split <;> rfl
  · simp [recordHerbRaw, recordHerb, hlen]

/-- On arguments that are text and a stored value that the encoder wrote, the transfer on
byte strings is the transfer on text. -/
theorem changeHerbHolderRaw_text (APIstub : ChaincodeStub) (k h2 : String) (herb : HerbCrops)
    (hget : APIstub.state.get k = some (json.Marshal herb)) :
    changeHerbHolderRaw APIstub [utf8.bytes k, utf8.bytes h2]
      = some (changeHerbHolder APIstub [k, h2]) := by
  have hm : json.MarshalRaw { herb.bytes with Holder := utf8.bytes h2 }
      = json.Marshal { herb with Holder := h2 } :=
    json.MarshalRaw_bytes { herb with Holder := h2 }
  simp [changeHerbHolderRaw, changeHerbHolder, utf8.text_bytes, ChaincodeStub.GetState, hget,
    json.UnmarshalRaw_Marshal, json.Unmarshal_Marshal, hm]
  split <;> rfl

/-- After a record is written from byte strings, the query returns bytes that decode to
the record in which every byte that is not part of a valid UTF-8 sequence has become
U+FFFD. -/
theorem queryHerb_recordHerbRaw (APIstub : ChaincodeStub) (k : String)
    (name location timestamp holder : Bytes) (hput : APIstub.putErr k = false) :
    ∃ (stub : ChaincodeStub) (data : String),
      recordHerbRaw APIstub [utf8.bytes k, name, location, timestamp, holder]
          = some (shim.Success none, stub)
        ∧ (queryHerb stub [k]).1 = shim.Success (some data)
        ∧ ∀ h0 : RawHerbCrops, json.UnmarshalRaw data h0
            = (false, { Name := utf8.encodeChars (utf8.coerced name), Family := [],
                        Location := utf8.encodeChars (utf8.coerced location),
                        Production := [],
                        Holder := utf8.encodeChars (utf8.coerced holder),
                        Timestamp := utf8.encodeChars (utf8.coerced timestamp) }) := by
  refine ⟨_, json.MarshalRaw
    { Name := name, Family := [], Location := location, Production := [],
      Holder := holder, Timestamp := timestamp },
    recordHerbRaw_ok APIstub k name location timestamp holder hput, ?_, ?_⟩
  · rw [queryHerb_found _ k _ (get_put_self _ _ _)]
  · intro h0
    rw [json.UnmarshalRaw_MarshalRaw]
    rfl

/-- After a record is written and its holder changed, both from byte strings, the query
returns bytes that decode to the record of the first write with the new holder, every
byte that is not part of a valid UTF-8 sequence having become U+FFFD. -/
theorem queryHerb_changeHerbHolderRaw (APIstub : ChaincodeStub) (k : String)
    (name location timestamp h1 h2 : Bytes) (hput : APIstub.putErr k = false) :
    ∃ (stub1 stub2 : ChaincodeStub) (data : String),
      recordHerbRaw APIstub [utf8.bytes k, name, location, timestamp, h1]
          = some (shim.Success none, stub1)
        ∧ changeHerbHolderRaw stub1 [utf8.bytes k, h2] = some (shim.Success none, stub2)
        ∧ (queryHerb stub2 [k]).1 = shim.Success (some data)
        ∧ ∀ h0 : RawHerbCrops, json.UnmarshalRaw data h0
            = (false, { Name := utf8.encodeChars (utf8.coerced
                          (utf8.encodeChars (utf8.coerced name))),
                        Family := [],
                        Location := utf8.encodeChars (utf8.coerced
                          (utf8.encodeChars (utf8.coerced location))),
                        Production := [],
                        Holder := utf8.encodeChars (utf8.coerced h2),
                        Timestamp := utf8.encodeChars (utf8.coerced
                          (utf8.encodeChars (utf8.coerced timestamp))) }) := by
  refine ⟨_, _, json.MarshalRaw
    { (json.UnmarshalRaw (json.MarshalRaw
        { Name := name, Family := [], Location := location, Production := [],
          Holder := h1, Timestamp := timestamp }) emptyRawHerb).2 with Holder := h2 },
    recordHerbRaw_ok APIstub k name location timestamp h1 hput,
    changeHerbHolderRaw_ok _ k _ h2 (get_put_self _ _ _) hput, ?_, ?_⟩
  · dsimp only
    rw [queryHerb_found _ k _ (get_put_self _ _ _)]
  · intro h0
    rw [json.UnmarshalRaw_MarshalRaw, json.UnmarshalRaw_MarshalRaw]
    rfl

/-! ### Claims -/

/-- C1, for strings that are valid UTF-8: after `recordHerb` is called with the
bytes of the five texts `[k, name, location, timestamp, holder]` and the store accepts the
write, the call succeeds and `queryHerb [k]` succeeds with bytes that decode, without
error and into any record, to the record whose name, location, timestamp and holder are
exactly the supplied byte strings and whose `Family` and `Production` are empty. -/
theorem C1_queryHerb_after_recordHerb_utf8 (APIstub : ChaincodeStub)
    (k name location timestamp holder : String) (hput : APIstub.putErr k = false) :
    ∃ (stub : ChaincodeStub) (data : String),
      recordHerbRaw APIstub [utf8.bytes k, utf8.bytes name, utf8.bytes location,
          utf8.bytes timestamp, utf8.bytes holder] = some (shim.Success none, stub)
        ∧ (queryHerb stub [k]).1 = shim.Success (some data)
        ∧ ∀ h0 : RawHerbCrops, json.UnmarshalRaw data h0
            = (false, { Name := utf8.bytes name, Family := [],
                        Location := utf8.bytes location, Production := [],
                        Holder := utf8.bytes holder,
                        Timestamp := utf8.bytes timestamp }) := by
  refine ⟨_, json.MarshalRaw
    { Name := utf8.bytes name, Family := [], Location := utf8.bytes location,
      Production := [], Holder := utf8.bytes holder, Timestamp := utf8.bytes timestamp },
    recordHerbRaw_ok APIstub k _ _ _ _ hput, ?_, ?_⟩
  · rw [queryHerb_found _ k _ (get_put_self _ _ _)]
  · intro h0
    rw [json.UnmarshalRaw_MarshalRaw]
    simp only [utf8.encodeChars_coerced_bytes]
    rfl

/-- Witness of C1 on the empty ledger, key `7`, with a holder of more than one byte per
character. -/
theorem C1_witness :
    ∃ (stub : ChaincodeStub) (data : String),
      recordHerbRaw emptyStub [utf8.bytes "7", utf8.bytes "A1B2", utf8.bytes "1.5, -2.5",
          utf8.bytes "1504054225", utf8.bytes "Zoë"] = some (shim.Success none, stub)
        ∧ (queryHerb stub ["7"]).1 = shim.Success (some data)
        ∧ ∀ h0 : RawHerbCrops, json.UnmarshalRaw data h0
            = (false, { Name := utf8.bytes "A1B2", Family := [],
                        Location := utf8.bytes "1.5, -2.5", Production := [],
                        Holder := utf8.bytes "Zoë",
                        Timestamp := utf8.bytes "1504054225" }) :=
  C1_queryHerb_after_recordHerb_utf8 emptyStub "7" "A1B2" "1.5, -2.5" "1504054225" "Zoë" rfl

set_option maxRecDepth 100000 in
/-- C1, the failing input, a string that is not valid UTF-8: on the empty ledger
`recordHerb` is called with key `7`, the name of the single byte `0xFF`, location `l`,
timestamp `t` and holder `h`.  Both calls succeed, and the returned bytes decode without
error to a record whose name is the three bytes of U+FFFD, not the supplied byte `0xFF`. -/
theorem C1_counterexample :
    (recordHerbRaw emptyStub [[55], [255], [108], [116], [104]]).map
        (fun r => (r.1, (queryHerb r.2 ["7"]).1))
      = some (shim.Success none, shim.Success (some
          "\x7b\"name\":\"\\ufffd\",\"family\":\"\",\"location\":\"l\",\"production\":\"\",\"holder\":\"h\",\"timestamp\":\"t\"\x7d"))
      ∧ json.UnmarshalRaw
          "\x7b\"name\":\"\\ufffd\",\"family\":\"\",\"location\":\"l\",\"production\":\"\",\"holder\":\"h\",\"timestamp\":\"t\"\x7d"
          emptyRawHerb
        = (false, { Name := [239, 191, 189], Family := [], Location := [108],
                    Production := [], Holder := [104], Timestamp := [116] })
      ∧ (json.UnmarshalRaw
          "\x7b\"name\":\"\\ufffd\",\"family\":\"\",\"location\":\"l\",\"production\":\"\",\"holder\":\"h\",\"timestamp\":\"t\"\x7d"
          emptyRawHerb).2.Name ≠ [255] := by
  decide

/-- C2, for strings that are valid UTF-8: after `recordHerb` with the bytes of the
texts `[k, name, location, timestamp]` and any byte string `h1` as holder, followed by
`changeHerbHolder` with the bytes of the texts `[k, h2]`, both writes accepted by the
store, both calls succeed and `queryHerb [k]` succeeds with bytes that decode, without
error and into any record, to the record with holder `h2`, the name, location and
timestamp of the original write, and `Family` and `Production` empty. -/
theorem C2_queryHerb_after_changeHerbHolder_utf8 (APIstub : ChaincodeStub)
    (k name location timestamp h2 : String) (h1 : Bytes)
    (hput : APIstub.putErr k = false) :
    ∃ (stub1 stub2 : ChaincodeStub) (data : String),
      recordHerbRaw APIstub [utf8.bytes k, utf8.bytes name, utf8.bytes location,
          utf8.bytes timestamp, h1] = some (shim.Success none, stub1)
        ∧ changeHerbHolderRaw stub1 [utf8.bytes k, utf8.bytes h2]
            = some (shim.Success none, stub2)
        ∧ (queryHerb stub2 [k]).1 = shim.Success (some data)
        ∧ ∀ h0 : RawHerbCrops, json.UnmarshalRaw data h0
            = (false, { Name := utf8.bytes name, Family := [],
                        Location := utf8.bytes location, Production := [],
                        Holder := utf8.bytes h2,
                        Timestamp := utf8.bytes timestamp }) := by
  refine ⟨_, _, json.MarshalRaw
    { (json.UnmarshalRaw (json.MarshalRaw
        { Name := utf8.bytes name, Family := [], Location := utf8.bytes location,
          Production := [], Holder := h1, Timestamp := utf8.bytes timestamp })
        emptyRawHerb).2 with Holder := utf8.bytes h2 },
    recordHerbRaw_ok APIstub k _ _ _ h1 hput,
    changeHerbHolderRaw_ok _ k _ _ (get_put_self _ _ _) hput, ?_, ?_⟩
  · dsimp only
    rw [queryHerb_found _ k _ (get_put_self _ _ _)]
  · intro h0
    rw [json.UnmarshalRaw_MarshalRaw, json.UnmarshalRaw_MarshalRaw]
    simp only [utf8.encodeChars_coerced_bytes]
    rfl

/-- Witness of C2 on the empty ledger, key `7`: the first holder is the single byte
`0xFF`, which is not valid UTF-8, and the record is handed to `Zoë`. -/
theorem C2_witness :
    ∃ (stub1 stub2 : ChaincodeStub) (data : String),
      recordHerbRaw emptyStub [utf8.bytes "7", utf8.bytes "A1B2", utf8.bytes "1.5, -2.5",
          utf8.bytes "1504054225", [255]] = some (shim.Success none, stub1)
        ∧ changeHerbHolderRaw stub1 [utf8.bytes "7", utf8.bytes "Zoë"]
            = some (shim.Success none, stub2)
        ∧ (queryHerb stub2 ["7"]).1 = shim.Success (some data)
        ∧ ∀ h0 : RawHerbCrops, json.UnmarshalRaw data h0
            = (false, { Name := utf8.bytes "A1B2", Family := [],
                        Location := utf8.bytes "1.5, -2.5", Production := [],
                        Holder := utf8.bytes "Zoë",
                        Timestamp := utf8.bytes "1504054225" }) :=
  C2_queryHerb_after_changeHerbHolder_utf8 emptyStub "7" "A1B2" "1.5, -2.5" "1504054225"
    "Zoë" [255] rfl

set_option maxRecDepth 100000 in
/-- C2, the failing input, a string that is not valid UTF-8: on the empty ledger
`recordHerb` is called with key `7`, name `n`, location `l`, timestamp `t` and holder `h`,
then `changeHerbHolder` with key `7` and the new holder of the single byte `0xFF`.  All
three calls succeed, and the returned bytes decode without error to a record whose holder
is the three bytes of U+FFFD, not the supplied byte `0xFF`. -/
theorem C2_counterexample :
    (recordHerbRaw emptyStub [[55], [110], [108], [116], [104]]).bind
        (fun r => (changeHerbHolderRaw r.2 [[55], [255]]).map
          (fun q => (r.1, q.1, (queryHerb q.2 ["7"]).1)))
      = some (shim.Success none, shim.Success none, shim.Success (some
          "\x7b\"name\":\"n\",\"family\":\"\",\"location\":\"l\",\"production\":\"\",\"holder\":\"\\ufffd\",\"timestamp\":\"t\"\x7d"))
      ∧ json.UnmarshalRaw
          "\x7b\"name\":\"n\",\"family\":\"\",\"location\":\"l\",\"production\":\"\",\"holder\":\"\\ufffd\",\"timestamp\":\"t\"\x7d"
          emptyRawHerb
        = (false, { Name := [110], Family := [], Location := [108],
                    Production := [], Holder := [239, 191, 189], Timestamp := [116] })
      ∧ (json.UnmarshalRaw
          "\x7b\"name\":\"n\",\"family\":\"\",\"location\":\"l\",\"production\":\"\",\"holder\":\"\\ufffd\",\"timestamp\":\"t\"\x7d"
          emptyRawHerb).2.Holder ≠ [255] := by
  decide

/-- C3: on the empty ledger, when the store accepts the ten writes and the scan reports no
error, `initLedger` followed by `queryAllHerbs` succeeds with a body that reads back as
an array of exactly 10 rows; for every `i` from 1 to 10 exactly one row has the decimal
text of `i` as `Key`, its members are `Key` and `Record`, and its `Record` decodes without
error to record `i` of the test data (key `1`: name `923F`, holder `Miriam`; key `10`:
name `49W4`, holder `Fatima`). -/
theorem C3_queryAllHerbs_after_initLedger (APIstub : ChaincodeStub)
    (hempty : APIstub.state = WorldState.empty)
    (hput : ∀ j, j < 10 → APIstub.putErr (strconv.Itoa (j + 1)) = false)
    (hscan : APIstub.rangeErr = none) :
    ∃ (payload : String) (rows : List json.ReadRow),
      (queryAllHerbs (initLedger APIstub).2).1 = shim.Success (some payload)
        ∧ json.readRows payload = some rows
        ∧ rows.length = 10
        ∧ (∀ i, i < 10 →
            rows.filter (fun r => decide (r.key = some (strconv.Itoa (i + 1))))
              = [{ members := some ["Key", "Record"], key := some (strconv.Itoa (i + 1)),
                   record := some (false, herb.getD i emptyHerb) }])
        ∧ ((herb.getD 0 emptyHerb).Name, (herb.getD 0 emptyHerb).Holder) = ("923F", "Miriam")
        ∧ ((herb.getD 9 emptyHerb).Name, (herb.getD 9 emptyHerb).Holder) = ("49W4", "Fatima") := by
  have hscan2 : (initLedger APIstub).2.rangeErr = none := by
    rw [initLedger_eq APIstub hput]
    exact hscan
  refine ⟨expectedBody (scanRows (initLedger emptyStub).2), json.seededRows, ?_,
    readRows_seeded, seededRows_facts.1, seededRows_facts.2, by decide, by decide⟩
  rw [queryAllHerbs_of_scan _ _ (GetStateByRange_ok _ hscan2),
    scanRows_seeded APIstub hempty hput]

/-- Witness of C3: the empty ledger on which no call reports an error. -/
theorem C3_witness :
    ∃ (payload : String) (rows : List json.ReadRow),
      (queryAllHerbs (initLedger emptyStub).2).1 = shim.Success (some payload)
        ∧ json.readRows payload = some rows
        ∧ rows.length = 10
        ∧ (∀ i, i < 10 →
            rows.filter (fun r => decide (r.key = some (strconv.Itoa (i + 1))))
              = [{ members := some ["Key", "Record"], key := some (strconv.Itoa (i + 1)),
                   record := some (false, herb.getD i emptyHerb) }])
        ∧ ((herb.getD 0 emptyHerb).Name, (herb.getD 0 emptyHerb).Holder) = ("923F", "Miriam")
        ∧ ((herb.getD 9 emptyHerb).Name, (herb.getD 9 emptyHerb).Holder) = ("49W4", "Fatima") :=
  C3_queryAllHerbs_after_initLedger emptyStub rfl (fun _ _ => rfl) rfl

/-- C4: `queryHerb [k]` fails with the message `Could not locate herb` exactly when `k`
has no entry, and when `k` has an entry it succeeds with exactly the stored bytes; the
ledger is not touched. -/
theorem C4_queryHerb_located_iff (APIstub : ChaincodeStub) (k : String) :
    ((queryHerb APIstub [k]).1 = shim.Error "Could not locate herb"
        ↔ APIstub.state.get k = none)
      ∧ (∀ v : String, APIstub.state.get k = some v →
          queryHerb APIstub [k] = (shim.Success (some v), APIstub)) := by
  refine ⟨⟨fun h => ?_, fun h => by rw [queryHerb_missing _ _ h]⟩,
    fun v h => queryHerb_found _ _ _ h⟩
  cases hg : APIstub.state.get k with
  | none => rfl
  | some v =>
    rw [queryHerb_found _ _ _ hg] at h
    exact absurd h (by simp [shim.Success, shim.Error, shim.OK, shim.ERROR])

/-- C5: a call with the wrong number of arguments fails with the message of its
operation, whatever the ledger holds, and leaves the stub as it was: `recordHerb` with a
count other than 5, `changeHerbHolder` with a count other than 2 and `queryHerb` with a
count other than 1. -/
theorem C5_argument_count (APIstub : ChaincodeStub) (args : List String) :
    (args.length ≠ 5 → recordHerb APIstub args
        = (shim.Error "Incorrect number of arguments. Expecting 5", APIstub))
      ∧ (args.length ≠ 2 → changeHerbHolder APIstub args
        = (shim.Error "Incorrect number of arguments. Expecting 2", APIstub))
      ∧ (args.length ≠ 1 → queryHerb APIstub args
        = (shim.Error "Incorrect number of arguments. Expecting 1", APIstub)) := by
  refine ⟨fun h => ?_, fun h => ?_, fun h => ?_⟩
  · simp [recordHerb, h]
  · simp [changeHerbHolder, h]
  · simp [queryHerb, h]

/-- C6: `changeHerbHolder [k, h]` on a key without entry fails with the message
`Could not locate herb` and leaves the stub, and so the ledger, as it was. -/
theorem C6_changeHerbHolder_not_located (APIstub : ChaincodeStub) (k h : String)
    (hget : APIstub.state.get k = none) :
    changeHerbHolder APIstub [k, h] = (shim.Error "Could not locate herb", APIstub) :=
  changeHerbHolder_missing APIstub k h hget

/-- Witness of C6: the key `42` on the empty ledger. -/
theorem C6_witness :
    changeHerbHolder emptyStub ["42", "Bob"]
      = (shim.Error "Could not locate herb", emptyStub) :=
  C6_changeHerbHolder_not_located emptyStub "42" "Bob" rfl

/-- C7: for every sequence of rows the scan hands over, the response of `queryAllHerbs`
is the success whose body is `[`, the texts of the rows in scan order with a single
comma between consecutive ones, and `]`; each row is written as its key between quotes
under `Key` and its raw value under `Record`; no rows give exactly `[]`, as a success. -/
theorem C7_queryAllHerbs_body (APIstub : ChaincodeStub) (rows : List (String × String))
    (hscan : APIstub.GetStateByRange "0" "999" = Except.ok (rows.map Except.ok)) :
    queryAllHerbs APIstub
        = (shim.Success (some ("[" ++ ",".intercalate (rows.map (fun row =>
            "\x7b\"Key\":\"" ++ row.1 ++ "\", \"Record\":" ++ row.2 ++ "\x7d")) ++ "]")),
            APIstub)
      ∧ (rows = [] → queryAllHerbs APIstub = (shim.Success (some "[]"), APIstub)) := by
  have h := queryAllHerbs_of_scan APIstub rows hscan
  refine ⟨h, fun hnil => ?_⟩
  rw [h, hnil]
  rfl

/-- Witness of C7: a ledger whose scan gives two rows. -/
theorem C7_witness :
    queryAllHerbs sampleStub
        = (shim.Success (some
            "[\x7b\"Key\":\"1\", \"Record\":\x7b\"name\":\"a\"\x7d\x7d,\x7b\"Key\":\"2\", \"Record\":true\x7d]"),
            sampleStub) :=
  (C7_queryAllHerbs_body sampleStub [("1", "\x7b\"name\":\"a\"\x7d"), ("2", "true")] rfl).1

/-- C8: when the scan reports no error, the rows of the response of `queryAllHerbs` are
exactly the entries of the ledger whose key `k` satisfies `"0" <= k < "999"` in the
lexicographic order, in strictly ascending key order and so each key once; after
`initLedger` on the empty ledger the keys come as `1, 10, 2, ..., 9`; the key `1000` is in
the range, the keys `999` and `A1` are not. -/
theorem C8_queryAllHerbs_rows (APIstub : ChaincodeStub) (hscan : APIstub.rangeErr = none) :
    APIstub.GetStateByRange "0" "999" = Except.ok ((scanRows APIstub).map Except.ok)
      ∧ (queryAllHerbs APIstub).1 = shim.Success (some (expectedBody (scanRows APIstub)))
      ∧ (∀ k v : String, (k, v) ∈ scanRows APIstub
          ↔ (APIstub.state.get k = some v ∧ ¬ keyLt k "0" ∧ keyLt k "999"))
      ∧ (scanRows APIstub).Pairwise (fun x y => keyLt x.1 y.1)
      ∧ ((scanRows APIstub).map Prod.fst).Nodup
      ∧ (scanRows (initLedger emptyStub).2).map Prod.fst
          = ["1", "10", "2", "3", "4", "5", "6", "7", "8", "9"]
      ∧ inRange "0" "999" "1000" = true
      ∧ inRange "0" "999" "999" = false
      ∧ inRange "0" "999" "A1" = false := by
  refine ⟨GetStateByRange_ok APIstub hscan, ?_, mem_scanRows_iff APIstub,
    scanRows_sorted APIstub, scanRows_nodup APIstub, by decide, by decide, by decide,
    by decide⟩
  rw [queryAllHerbs_of_scan _ _ (GetStateByRange_ok APIstub hscan)]

/-- Witness of C8: the ledger with the keys `1`, `2` and `A`, of which the scan lists the
first two. -/
theorem C8_witness :
    (queryAllHerbs sampleStub).1 = shim.Success (some (expectedBody (scanRows sampleStub)))
      ∧ (scanRows sampleStub).map Prod.fst = ["1", "2"] :=
  ⟨(C8_queryAllHerbs_rows sampleStub rfl).2.1, by decide⟩

/-- C9, the failing input: after `recordHerb` under the key `A1` on the empty ledger the
key has an entry, and `queryAllHerbs` still answers with the empty array. -/
theorem C9_recorded_key_not_listed :
    (recordHerb emptyStub ["A1", "n", "l", "t", "h"]).1 = shim.Success none
      ∧ ((recordHerb emptyStub ["A1", "n", "l", "t", "h"]).2.state.get "A1").isSome = true
      ∧ (queryAllHerbs (recordHerb emptyStub ["A1", "n", "l", "t", "h"]).2).1
          = shim.Success (some "[]") := by
  decide

/-- C10, the failing input: after `recordHerb` under the key `1"x` on the empty ledger,
`queryAllHerbs` writes the key between quotes as it is, and the body is not a valid
document: the parser rejects it, with whatever fuel. -/
theorem C10_quote_in_key_breaks_document :
    (queryAllHerbs (recordHerb emptyStub ["1\"x", "n", "l", "t", "h"]).2).1
        = shim.Success (some
            "[\x7b\"Key\":\"1\"x\", \"Record\":\x7b\"name\":\"n\",\"family\":\"\",\"location\":\"l\",\"production\":\"\",\"holder\":\"h\",\"timestamp\":\"t\"\x7d\x7d]")
      ∧ json.Valid
          "[\x7b\"Key\":\"1\"x\", \"Record\":\x7b\"name\":\"n\",\"family\":\"\",\"location\":\"l\",\"production\":\"\",\"holder\":\"h\",\"timestamp\":\"t\"\x7d\x7d]"
        = false
      ∧ (∀ fuel : Nat, (json.parseValue fuel
          "[\x7b\"Key\":\"1\"x\", \"Record\":\x7b\"name\":\"n\",\"family\":\"\",\"location\":\"l\",\"production\":\"\",\"holder\":\"h\",\"timestamp\":\"t\"\x7d\x7d]".data).isSome
        = false) :=
  ⟨by decide, by decide, parseValue_quoted_key_fails⟩


/-- C11, the failing input: `recordHerb` and `changeHerbHolder` answer a write the store
refuses with their failure naming the key and leave the stub as it was, but `initLedger`
answers with a success whatever the store reports; on the empty ledger whose every write
is refused it answers with a success and has written nothing. -/
theorem C11_initLedger_drops_put_error :
    (∀ (APIstub : ChaincodeStub) (k n l t h : String), APIstub.putErr k = true →
        recordHerb APIstub [k, n, l, t, h]
          = (shim.Error ("Failed to record herbs plucked: " ++ k), APIstub))
      ∧ (∀ (APIstub : ChaincodeStub) (k h v : String),
          APIstub.state.get k = some v → APIstub.putErr k = true →
          changeHerbHolder APIstub [k, h]
            = (shim.Error ("Failed to change herb production holder: " ++ k), APIstub))
      ∧ (∀ APIstub : ChaincodeStub, (initLedger APIstub).1 = shim.Success none)
      ∧ (initLedger failingStub).1 = shim.Success none
      ∧ (initLedger failingStub).2.state.entries = [] := by
  refine ⟨fun APIstub k n l t h hp => ?_, fun APIstub k h v hget hp => ?_, fun _ => rfl,
    rfl, by decide⟩
  · rw [recordHerb_cons APIstub k [n, l, t, h] rfl, if_pos hp]
  · rw [changeHerbHolder_cons APIstub k [h] v rfl hget, if_pos hp]

/-- C12: a key that has an entry before a call of `Invoke` has an entry after it, whatever
the function name and the arguments, and so after every sequence of calls. -/
theorem C12_no_entry_deleted (APIstub : ChaincodeStub) (function : String)
    (args : List String) (k : String) (h : (APIstub.state.get k).isSome = true) :
    ((Invoke APIstub function args).2.state.get k).isSome = true
      ∧ ∀ calls : List (String × List String),
          ((invokeAll APIstub calls).state.get k).isSome = true :=
  ⟨Invoke_isSome APIstub function args k h, fun calls => invokeAll_isSome calls APIstub k h⟩

/-- Witness of C12: the key `1` of a ledger with three entries, across a transfer. -/
theorem C12_witness :
    ((Invoke sampleStub "changeHerbHolder" ["1", "Bob"]).2.state.get "1").isSome = true
      ∧ ∀ calls : List (String × List String),
          ((invokeAll sampleStub calls).state.get "1").isSome = true :=
  C12_no_entry_deleted sampleStub "changeHerbHolder" ["1", "Bob"] "1" (by decide)

/-- C13: the encoding of every record is a document that is an object with the six members
`name`, `family`, `location`, `production`, `holder`, `timestamp`, in this order, each a
string holding the field; the record `recordHerb` writes has `family` and `production`
present with the empty string. -/
theorem C13_all_six_members (r : HerbCrops) :
    json.parseDocument (json.Marshal r).data
        = some (json.Value.object
            [ ("name".data, json.Value.string r.Name.data),
              ("family".data, json.Value.string r.Family.data),
              ("location".data, json.Value.string r.Location.data),
              ("production".data, json.Value.string r.Production.data),
              ("holder".data, json.Value.string r.Holder.data),
              ("timestamp".data, json.Value.string r.Timestamp.data) ])
      ∧ (json.parseDocument (json.Marshal r).data).bind json.Value.memberNames
          = some ["name", "family", "location", "production", "holder", "timestamp"]
      ∧ (∀ (APIstub : ChaincodeStub) (k n l t h : String), APIstub.putErr k = false →
          (recordHerb APIstub [k, n, l, t, h]).2.state.get k
            = some (json.Marshal { Name := n, Family := "", Location := l, Production := "",
                                   Holder := h, Timestamp := t }))
      ∧ json.Marshal { Name := "n", Family := "", Location := "l", Production := "",
                       Holder := "h", Timestamp := "t" }
          = "\x7b\"name\":\"n\",\"family\":\"\",\"location\":\"l\",\"production\":\"\",\"holder\":\"h\",\"timestamp\":\"t\"\x7d" := by
  refine ⟨json.parseDocument_Marshal r, ?_, fun APIstub k n l t h hp => ?_, by decide⟩
  · rw [json.parseDocument_Marshal r]
    rfl
  · rw [recordHerb_ok APIstub k n l t h hp]
    exact get_put_self _ _ _

/-- C14: when the bytes stored under `k` are not a valid document and the store accepts
the write, the decoder reports its error and leaves the fresh record untouched,
`changeHerbHolder [k, h]` still answers with a success, and the value under `k` afterwards
is the encoding of the record with holder `h` and the five other fields empty, which is
not the payload stored before. -/
theorem C14_changeHerbHolder_on_invalid (APIstub : ChaincodeStub) (k h v : String)
    (hget : APIstub.state.get k = some v) (hbad : json.Valid v = false)
    (hput : APIstub.putErr k = false) :
    json.Unmarshal v emptyHerb = (true, emptyHerb)
      ∧ (changeHerbHolder APIstub [k, h]).1 = shim.Success none
      ∧ (changeHerbHolder APIstub [k, h]).2.state.get k
          = some (json.Marshal { Name := "", Family := "", Location := "", Production := "",
                                 Holder := h, Timestamp := "" })
      ∧ (changeHerbHolder APIstub [k, h]).2.state.get k ≠ some v := by
  have hun : json.Unmarshal v emptyHerb = (true, emptyHerb) := by
    unfold json.Valid at hbad
    unfold json.Unmarshal
    cases hp : json.parseDocument v.data with
    | none => rfl
    | some d => simp [hp] at hbad
  have hstate : (changeHerbHolder APIstub [k, h]).2.state.get k
      = some (json.Marshal { Name := "", Family := "", Location := "", Production := "",
                             Holder := h, Timestamp := "" }) := by
    rw [changeHerbHolder_ok APIstub k h v hget hput, hun]
    exact get_put_self _ _ _
  refine ⟨hun, ?_, hstate, ?_⟩
  · rw [changeHerbHolder_ok APIstub k h v hget hput]
  · rw [hstate]
    intro heq
    have hv : json.Valid v = true := by
      rw [← Option.some.inj heq]
      unfold json.Valid
      rw [json.parseDocument_Marshal]
      rfl
    rw [hbad] at hv
    exact Bool.noConfusion hv

/-- Witness of C14: the ledger whose entry under `1` is the text `oops`. -/
theorem C14_witness :
    json.Unmarshal "oops" emptyHerb = (true, emptyHerb)
      ∧ (changeHerbHolder brokenStub ["1", "Bob"]).1 = shim.Success none
      ∧ (changeHerbHolder brokenStub ["1", "Bob"]).2.state.get "1"
          = some (json.Marshal { Name := "", Family := "", Location := "", Production := "",
                                 Holder := "Bob", Timestamp := "" })
      ∧ (changeHerbHolder brokenStub ["1", "Bob"]).2.state.get "1" ≠ some "oops" :=
  C14_changeHerbHolder_on_invalid brokenStub "1" "Bob" "oops" (by decide) (by decide) rfl

/-- C15: `recordHerb` and `changeHerbHolder` leave the value of every key other than
`args[0]` as it was, for every argument list, on success and on failure. -/
theorem C15_other_keys_untouched (APIstub : ChaincodeStub) (args : List String)
    (k2 : String) (h : args.head? ≠ some k2) :
    (recordHerb APIstub args).2.state.get k2 = APIstub.state.get k2
      ∧ (changeHerbHolder APIstub args).2.state.get k2 = APIstub.state.get k2 :=
  ⟨recordHerb_other APIstub args k2 h, changeHerbHolder_other APIstub args k2 h⟩

/-- Witness of C15: the key `2` across a write and a transfer under the key `1`. -/
theorem C15_witness :
    (recordHerb sampleStub ["1", "n", "l", "t", "h"]).2.state.get "2" = sampleStub.state.get "2"
      ∧ (changeHerbHolder sampleStub ["1", "n", "l", "t", "h"]).2.state.get "2"
          = sampleStub.state.get "2" :=
  C15_other_keys_untouched sampleStub ["1", "n", "l", "t", "h"] "2" (by decide)

/-- C16: `queryHerb`, `queryAllHerbs` and `Init` return the stub they were given, and so
the ledger as it was, on success and on failure. -/
theorem C16_reads_leave_ledger (APIstub : ChaincodeStub) (args : List String) :
    (queryHerb APIstub args).2 = APIstub
      ∧ (queryAllHerbs APIstub).2 = APIstub
      ∧ (Init APIstub).2 = APIstub :=
  ⟨queryHerb_stub APIstub args, queryAllHerbs_stub APIstub, rfl⟩

/-- C17: `changeHerbHolder [k, h1]` followed by `changeHerbHolder [k, h2]` leaves the same
stub, and so the same ledger, as `changeHerbHolder [k, h2]` alone; applying a transfer
twice leaves the same as applying it once; and when `k` holds the encoding of a record
and the store accepts the writes, the value afterwards is the encoding of that record
with holder `h2`. -/
theorem C17_transfer_last_writer_wins (APIstub : ChaincodeStub) (k h1 h2 : String) :
    (changeHerbHolder (changeHerbHolder APIstub [k, h1]).2 [k, h2]).2
        = (changeHerbHolder APIstub [k, h2]).2
      ∧ (changeHerbHolder (changeHerbHolder APIstub [k, h2]).2 [k, h2]).2
        = (changeHerbHolder APIstub [k, h2]).2
      ∧ (∀ r : HerbCrops, APIstub.state.get k = some (json.Marshal r) →
          APIstub.putErr k = false →
          (changeHerbHolder (changeHerbHolder APIstub [k, h1]).2 [k, h2]).2.state.get k
            = some (json.Marshal { r with Holder := h2 })) := by
  refine ⟨changeHerbHolder_twice APIstub k h1 h2, changeHerbHolder_twice APIstub k h2 h2,
    fun r hget hput => ?_⟩
  rw [changeHerbHolder_twice APIstub k h1 h2, changeHerbHolder_ok APIstub k h2 _ hget hput,
    json.Unmarshal_Marshal]
  exact get_put_self _ _ _

/-- C18: on every ledger, after `initLedger` each key `i` from 1 to 10 whose write the
store accepts holds the encoding of record `i` of the test data, whatever it held before;
every key other than these ten keeps its value; and `initLedger` run twice leaves the same
stub, and so the same ledger, as run once. -/
theorem C18_initLedger_overwrites (APIstub : ChaincodeStub) :
    (∀ i, i < 10 → APIstub.putErr (strconv.Itoa (i + 1)) = false →
        (initLedger APIstub).2.state.get (strconv.Itoa (i + 1))
          = some (json.Marshal (herb.getD i emptyHerb)))
      ∧ (∀ k : String, (∀ i, i < 10 → k ≠ strconv.Itoa (i + 1)) →
          (initLedger APIstub).2.state.get k = APIstub.state.get k)
      ∧ (initLedger (initLedger APIstub).2).2 = (initLedger APIstub).2 := by
  refine ⟨fun i hi hp => ?_, initLedger_get_other APIstub, initLedger_twice APIstub⟩
  rw [initLedger_get_seed APIstub i hi, hp]
  rfl

/-- C19: `Invoke` gives, under each of the five names `queryHerb`, `initLedger`,
`recordHerb`, `queryAllHerb` and `changeHerbHolder`, exactly the result of the operation
on the same stub and arguments, and under every other name, `queryAllHerbs` and the empty
name among them, the failure `Invalid Smart Contract function name.` with the stub as it
was. -/
theorem C19_Invoke_routes (APIstub : ChaincodeStub) (args : List String) :
    Invoke APIstub "queryHerb" args = queryHerb APIstub args
      ∧ Invoke APIstub "initLedger" args = initLedger APIstub
      ∧ Invoke APIstub "recordHerb" args = recordHerb APIstub args
      ∧ Invoke APIstub "queryAllHerb" args = queryAllHerbs APIstub
      ∧ Invoke APIstub "changeHerbHolder" args = changeHerbHolder APIstub args
      ∧ (∀ function : String,
          function ∉ ["queryHerb", "initLedger", "recordHerb", "queryAllHerb",
            "changeHerbHolder"] →
          Invoke APIstub function args
            = (shim.Error "Invalid Smart Contract function name.", APIstub))
      ∧ Invoke APIstub "queryAllHerbs" args
          = (shim.Error "Invalid Smart Contract function name.", APIstub)
      ∧ Invoke APIstub "" args
          = (shim.Error "Invalid Smart Contract function name.", APIstub) := by
  have hother : ∀ function : String,
      function ∉ ["queryHerb", "initLedger", "recordHerb", "queryAllHerb",
        "changeHerbHolder"] →
      Invoke APIstub function args
        = (shim.Error "Invalid Smart Contract function name.", APIstub) := by
    intro function hf
    simp only [List.mem_cons, List.mem_singleton, not_or, List.not_mem_nil, or_false] at hf
    unfold Invoke
    rw [if_neg hf.1, if_neg hf.2.1, if_neg hf.2.2.1, if_neg hf.2.2.2.1, if_neg hf.2.2.2.2]
  refine ⟨?_, ?_, ?_, ?_, ?_, hother, hother _ (by decide), hother _ (by decide)⟩
  · unfold Invoke
    rw [if_pos rfl]
  · unfold Invoke
    rw [if_neg (by decide), if_pos rfl]
  · unfold Invoke
    rw [if_neg (by decide), if_neg (by decide), if_pos rfl]
  · unfold Invoke
    rw [if_neg (by decide), if_neg (by decide), if_neg (by decide), if_pos rfl]
  · unfold Invoke
    rw [if_neg (by decide), if_neg (by decide), if_neg (by decide), if_neg (by decide),
      if_pos rfl]

end HerbChaincode
